import Mathlib

/-!
# Verification of the ledger-live reconciliation engine

Shallow embedding of src/libs/ledger-live-common/src/reconciliation.ts and the
account serialization helpers (src/unnamed/part_000), with theorems checking the
natural-language specification.

Modelling conventions:

* Every TypeScript object that the engine compares by reference (`===`) is
  embedded as a Lean value carrying enough information to decide identity.
  Operations get an explicit `ref : Nat` identity tag: the engine itself never
  constructs Operations, it only moves references around, so structural
  equality of tagged values coincides with JS reference equality.
* JS array identity for the two arrays the engine can return verbatim
  (`existingOperations` inside the builders, and the `account` object in the
  patchers) is tracked by explicit booleans: `operationsAliasesOriginal` /
  `existingOpsAliasesOriginal` in the step-builder state record whether the
  corresponding mutable variable currently holds the caller's original
  `existingOperations` array, and the builders return that bit; the patchers
  return a boolean that is true exactly when the cached object itself was
  returned.
* The external predicate `sameOp` (imported from bridge/jsHelpers in the
  source) is a parameter of the builder functions; the number of times the
  source would invoke it is recorded in the `sameOpCalls` counter field, which
  is incremented exactly where the source calls `sameOp`.
* Machine numbers that the source only ever compares for equality
  (blockHeight, balances of the history cache) are embedded as `Nat`/`Int`.
-/

/-- One reconciled ledger operation.  Only the fields the reconciliation
engine reads are kept: `id` (matching key), `hash` (merge key),
`blockHeight` (the one mutable-by-convention field, `null` while pending),
`payload` standing for all remaining content fields, and `ref`, the object
identity tag embedding JS reference equality. -/
structure Operation where
  id : String
  hash : String
  blockHeight : Option Nat
  payload : Nat
  ref : Nat
deriving DecidableEq, Repr

/-- Raw (wire form) ledger operation, as stored in an AccountRaw. -/
structure OperationRaw where
  id : String
  hash : String
  blockHeight : Option Nat
  payload : Nat
deriving DecidableEq, Repr

/-- State threaded through the walk of minimalOperationsBuilder
(reconciliation.ts, type StepBuilderState).  `operationsAliasesOriginal` and
`existingOpsAliasesOriginal` embed JS array identity: they are true while the
corresponding field holds the caller's original `existingOperations` array.
`sameOpCalls` counts the invocations of the external `sameOp` predicate. -/
structure StepBuilderState where
  operations : List Operation
  operationsAliasesOriginal : Bool
  existingOps : List Operation
  existingOpsAliasesOriginal : Bool
  immutableOpCmpDoneOnce : Bool
  finished : Bool
  sameOpCalls : Nat
deriving DecidableEq, Repr

/-- reconciliation.ts findExistingOp: first operation of `ops` whose id equals
the id of `op`. -/
def findExistingOp (ops : List Operation) (op : Operation) : Option Operation :=
  ops.find? (fun o => o.id == op.id)

/-- The second half of reconciliation.ts stepBuilder (the `if (existingOp)`
block at lines 527-549), reached once the immutability gate has been passed:
`j` is `existingOps.indexOf(existingOp)` (reference equality, embedded as
structural equality of tagged values) and `rest` the cached suffix from `j`.
If more cached entries remain than raw entries left, push the cached twin and
keep walking; otherwise stop: when nothing was pushed yet and `j = 0`, hand
back the `existingOps` array itself (the alias bit is inherited), else a fresh
concatenation. -/
def stepBuilderMatched (state : StepBuilderState) (existingOp : Operation)
    (i : Nat) : StepBuilderState :=
  let j := state.existingOps.findIdx (fun o => o == existingOp)
  let rest := state.existingOps.drop j
  if rest.length > i + 1 then
    { state with operations := state.operations ++ [existingOp] }
  else if state.operations.length == 0 && j == 0 then
    { state with operations := state.existingOps,
                 operationsAliasesOriginal := state.existingOpsAliasesOriginal,
                 finished := true }
  else
    { state with operations := state.operations ++ rest,
                 operationsAliasesOriginal := false,
                 finished := true }

/-- reconciliation.ts stepBuilder: one step of the walk.  A found id-match is
first screened by the one-shot immutability check: a blockHeight difference
pushes the new operation (pending to confirmed transition); otherwise the
external `sameOp` check runs once (counter incremented, one-shot flag set) and
on failure the whole existing cache window is discarded (its alias bit
cleared) and the new operation pushed.  Otherwise the matched logic
`stepBuilderMatched` runs.  No match at all pushes the new operation. -/
def stepBuilder (sameOp : Operation → Operation → Bool)
    (state : StepBuilderState) (newOp : Operation) (i : Nat) : StepBuilderState :=
  match findExistingOp state.existingOps newOp with
  | some existingOp =>
    if state.immutableOpCmpDoneOnce then
      stepBuilderMatched state existingOp i
    else
      if existingOp.blockHeight != newOp.blockHeight then
        { state with operations := state.operations ++ [newOp] }
      else
        let state1 := { state with immutableOpCmpDoneOnce := true,
                                   sameOpCalls := state.sameOpCalls + 1 }
        if sameOp existingOp newOp then
          stepBuilderMatched state1 existingOp i
        else
          { state1 with existingOps := [],
                        existingOpsAliasesOriginal := false,
                        operations := state1.operations ++ [newOp] }
  | none => { state with operations := state.operations ++ [newOp] }

/-- Result of a builder run: the produced list, whether the returned array is
the caller's `existingOperations` array itself (JS reference equality), and
how many times the external `sameOp` predicate was consulted. -/
structure BuilderResult where
  operations : List Operation
  aliasesExisting : Bool
  sameOpCalls : Nat
deriving DecidableEq, Repr

/-- Initial StepBuilderState of both builders. -/
def initBuilderState (existingOperations : List Operation) : StepBuilderState :=
  { operations := []
    operationsAliasesOriginal := false
    existingOps := existingOperations
    existingOpsAliasesOriginal := true
    immutableOpCmpDoneOnce := false
    finished := false
    sameOpCalls := 0 }

/-- Projection of the final state into the builder's return value. -/
def builderResult (s : StepBuilderState) : BuilderResult :=
  { operations := s.operations
    aliasesExisting := s.operationsAliasesOriginal
    sameOpCalls := s.sameOpCalls }

/-- The `for (let i = coreOperations.length - 1; i >= 0; i--)` loop of
minimalOperationsBuilderSync, over the list of (index, record) pairs in walk
order (highest index first); the walk stops as soon as a step finishes. -/
def syncLoop {CO : Type} (sameOp : Operation → Operation → Bool)
    (buildOp : CO → Option Operation) :
    List (Nat × CO) → StepBuilderState → StepBuilderState
  | [], state => state
  | (i, co) :: rest, state =>
    match buildOp co with
    | none => syncLoop sameOp buildOp rest state
    | some newOp =>
      let state1 := stepBuilder sameOp state newOp i
      if state1.finished then state1 else syncLoop sameOp buildOp rest state1

/-- reconciliation.ts minimalOperationsBuilderSync.  `coreOperations` is in
the source's array order (the walk runs from the last element to the first);
`buildOp` may skip a record. -/
def minimalOperationsBuilderSync {CO : Type}
    (sameOp : Operation → Operation → Bool)
    (buildOp : CO → Option Operation)
    (existingOperations : List Operation) (coreOperations : List CO) :
    BuilderResult :=
  if existingOperations.length == 0 && coreOperations.length == 0 then
    { operations := existingOperations, aliasesExisting := true, sameOpCalls := 0 }
  else
    builderResult
      (syncLoop sameOp buildOp coreOperations.enum.reverse
        (initBuilderState existingOperations))

/-- The loop of minimalOperationsBuilder when a `mergeSameHashOps` merger is
supplied: consecutive built operations sharing one hash are accumulated in
`acc` (the source's operationWithSameHash, in walk order); when the hash
changes the accumulated group is merged and fed to the step builder.  Returns
the leftover accumulator together with the final state. -/
def mergeLoop {CO : Type} (sameOp : Operation → Operation → Bool)
    (buildOp : CO → Option Operation) (mergeFn : List Operation → Operation) :
    List (Nat × CO) → List Operation → StepBuilderState →
      List Operation × StepBuilderState
  | [], acc, state => (acc, state)
  | (i, co) :: rest, acc, state =>
    match buildOp co with
    | none => mergeLoop sameOp buildOp mergeFn rest acc state
    | some op =>
      let accumulate := match acc with
        | [] => true
        | x :: _ => x.hash == op.hash
      if accumulate then
        mergeLoop sameOp buildOp mergeFn rest (acc ++ [op]) state
      else
        let newOp := mergeFn acc
        let state1 := stepBuilder sameOp state newOp i
        if state1.finished then ([op], state1)
        else mergeLoop sameOp buildOp mergeFn rest [op] state1

/-- reconciliation.ts minimalOperationsBuilder (the variant whose adapter may
suspend; suspension is irrelevant to the sequential semantics).  With no
merger it is the synchronous walk; with a merger the accumulated final group,
if any and if the walk did not finish early, is flushed through the step
builder with index 0. -/
def minimalOperationsBuilder {CO : Type}
    (sameOp : Operation → Operation → Bool)
    (buildOp : CO → Option Operation)
    (mergeSameHashOps : Option (List Operation → Operation))
    (existingOperations : List Operation) (coreOperations : List CO) :
    BuilderResult :=
  if existingOperations.length == 0 && coreOperations.length == 0 then
    { operations := existingOperations, aliasesExisting := true, sameOpCalls := 0 }
  else
    let state0 := initBuilderState existingOperations
    match mergeSameHashOps with
    | none => builderResult (syncLoop sameOp buildOp coreOperations.enum.reverse state0)
    | some mergeFn =>
      let r := mergeLoop sameOp buildOp mergeFn coreOperations.enum.reverse [] state0
      if r.2.finished then builderResult r.2
      else if r.1.length != 0 then
        builderResult (stepBuilder sameOp r.2 (mergeFn r.1) 0)
      else builderResult r.2

/-- One resolution bucket of the balance history cache
(types-live BalanceHistoryDataCache): the boundary of the most recent bucket
and the balance time series. -/
structure BalanceHistoryDataCache where
  latestDate : Option Int
  balances : List Int
deriving DecidableEq, Repr

/-- The bucketed balance history cache, keyed by resolution. -/
structure BalanceHistoryCache where
  HOUR : BalanceHistoryDataCache
  DAY : BalanceHistoryDataCache
  WEEK : BalanceHistoryDataCache
deriving DecidableEq, Repr

/-- reconciliation.ts shouldRefreshBalanceHistoryCache.  The source receives
the candidate cache and an AccountLike and reads only the account's
balanceHistoryCache, which is what the second argument stands for.  Only the
HOUR buckets are consulted. -/
def shouldRefreshBalanceHistoryCache (balanceHistoryCache : BalanceHistoryCache)
    (accountBalanceHistoryCache : BalanceHistoryCache) : Bool :=
  let oldH := accountBalanceHistoryCache.HOUR
  let newH := balanceHistoryCache.HOUR
  if oldH.latestDate != newH.latestDate then true
  else if oldH.balances.length != newH.balances.length then true
  else
    let length := newH.balances.length
    if length == 0 then false
    else if oldH.balances.getD (length - 1) 0 != newH.balances.getD (length - 1) 0 then true
    else false

/-! ## Case analysis of one step of the walk -/

/-- No id-match in the cache window: the new operation is pushed. -/
theorem stepBuilder_no_match (sameOp : Operation → Operation → Bool)
    (s : StepBuilderState) (n : Operation) (i : Nat)
    (h : findExistingOp s.existingOps n = none) :
    stepBuilder sameOp s n i = { s with operations := s.operations ++ [n] } := by
  simp [stepBuilder, h]

/-- Id-match before the one-shot check, with diverging blockHeight: the new
operation is pushed and nothing else changes (no sameOp call, flag not set,
walk not finished, window kept). -/
theorem stepBuilder_height_diff (sameOp : Operation → Operation → Bool)
    (s : StepBuilderState) (n e : Operation) (i : Nat)
    (hfind : findExistingOp s.existingOps n = some e)
    (hflag : s.immutableOpCmpDoneOnce = false)
    (hbh : e.blockHeight ≠ n.blockHeight) :
    stepBuilder sameOp s n i = { s with operations := s.operations ++ [n] } := by
  simp [stepBuilder, hfind, hflag, bne_iff_ne, hbh]

/-- Id-match before the one-shot check, equal blockHeight, but the full
semantic check fails: the flag fires, the sameOp counter ticks, the whole
cache window is emptied (alias bit cleared) and the new operation pushed;
the walk is not stopped. -/
theorem stepBuilder_mismatch (sameOp : Operation → Operation → Bool)
    (s : StepBuilderState) (n e : Operation) (i : Nat)
    (hfind : findExistingOp s.existingOps n = some e)
    (hflag : s.immutableOpCmpDoneOnce = false)
    (hbh : e.blockHeight = n.blockHeight)
    (hsame : sameOp e n = false) :
    stepBuilder sameOp s n i =
      { s with immutableOpCmpDoneOnce := true,
               sameOpCalls := s.sameOpCalls + 1,
               existingOps := [],
               existingOpsAliasesOriginal := false,
               operations := s.operations ++ [n] } := by
  simp [stepBuilder, hfind, hflag, hbh, hsame]

/-- Id-match with the one-shot check already done: the matched logic runs. -/
theorem stepBuilder_matched_done (sameOp : Operation → Operation → Bool)
    (s : StepBuilderState) (n e : Operation) (i : Nat)
    (hfind : findExistingOp s.existingOps n = some e)
    (hflag : s.immutableOpCmpDoneOnce = true) :
    stepBuilder sameOp s n i = stepBuilderMatched s e i := by
  simp [stepBuilder, hfind, hflag]

/-- Id-match passing the first-time immutability check (equal blockHeight and
sameOp succeeds): the flag fires, the counter ticks, then the matched logic
runs. -/
theorem stepBuilder_matched_fresh (sameOp : Operation → Operation → Bool)
    (s : StepBuilderState) (n e : Operation) (i : Nat)
    (hfind : findExistingOp s.existingOps n = some e)
    (hflag : s.immutableOpCmpDoneOnce = false)
    (hbh : e.blockHeight = n.blockHeight)
    (hsame : sameOp e n = true) :
    stepBuilder sameOp s n i =
      stepBuilderMatched
        { s with immutableOpCmpDoneOnce := true,
                 sameOpCalls := s.sameOpCalls + 1 } e i := by
  simp [stepBuilder, hfind, hflag, hbh, hsame]

/-- The matched logic when the cached suffix is strictly longer than the raw
entries left: the cached twin is pushed and the walk continues. -/
theorem stepBuilderMatched_continue (s : StepBuilderState) (e : Operation) (i : Nat)
    (h : i + 1 < (s.existingOps.drop (s.existingOps.findIdx (fun o => o == e))).length) :
    stepBuilderMatched s e i = { s with operations := s.operations ++ [e] } := by
  simp only [stepBuilderMatched]
  rw [if_pos h]

/-- The matched logic in a finishing step (cached suffix not longer than the
raw entries left), special case: nothing pushed yet and the match is at
window position 0: the walk stops and the window array itself becomes the
output (alias bit inherited). -/
theorem stepBuilderMatched_finish_alias (s : StepBuilderState) (e : Operation) (i : Nat)
    (h : (s.existingOps.drop (s.existingOps.findIdx (fun o => o == e))).length ≤ i + 1)
    (hops : s.operations = [])
    (hj : s.existingOps.findIdx (fun o => o == e) = 0) :
    stepBuilderMatched s e i =
      { s with operations := s.existingOps,
               operationsAliasesOriginal := s.existingOpsAliasesOriginal,
               finished := true } := by
  simp only [stepBuilderMatched]
  rw [if_neg (Nat.not_lt.mpr h), if_pos]
  simp [hops, hj]

/-- The matched logic in a finishing step, general case: the walk stops and
the output is the pushed prefix concatenated with the cached suffix (a fresh
array: alias bit cleared). -/
theorem stepBuilderMatched_finish_concat (s : StepBuilderState) (e : Operation) (i : Nat)
    (h : (s.existingOps.drop (s.existingOps.findIdx (fun o => o == e))).length ≤ i + 1)
    (hne : ¬(s.operations = [] ∧ s.existingOps.findIdx (fun o => o == e) = 0)) :
    stepBuilderMatched s e i =
      { s with operations :=
                 s.operations ++ s.existingOps.drop (s.existingOps.findIdx (fun o => o == e)),
               operationsAliasesOriginal := false,
               finished := true } := by
  simp only [stepBuilderMatched]
  rw [if_neg (Nat.not_lt.mpr h), if_neg]
  simp only [Bool.and_eq_true, beq_iff_eq, List.length_eq_zero, Nat.beq_eq_true_eq]
  exact fun hc => hne ⟨hc.1, hc.2⟩

/-! ## Run invariant: alias bits are sound, sameOp runs at most once -/

/-- Invariant of every state reachable in a builder run over the original
cache array `orig`: while the walk is unfinished the output array is a fresh
one; whenever an alias bit is set the corresponding field holds the original
array; and the external sameOp predicate has been consulted exactly once if
the one-shot flag fired, never otherwise. -/
def BuilderInv (orig : List Operation) (s : StepBuilderState) : Prop :=
  (s.finished = false → s.operationsAliasesOriginal = false) ∧
  (s.operationsAliasesOriginal = true → s.operations = orig) ∧
  (s.existingOpsAliasesOriginal = true → s.existingOps = orig) ∧
  (s.immutableOpCmpDoneOnce = false → s.sameOpCalls = 0) ∧
  s.sameOpCalls ≤ 1

theorem initBuilderState_inv (orig : List Operation) :
    BuilderInv orig (initBuilderState orig) := by
  refine ⟨fun _ => rfl, fun h => by simp [initBuilderState] at h, fun _ => rfl,
    fun _ => rfl, by simp [initBuilderState]⟩

theorem stepBuilderMatched_inv {orig : List Operation} {s : StepBuilderState}
    (e : Operation) (i : Nat) (h : BuilderInv orig s) (hf : s.finished = false) :
    BuilderInv orig (stepBuilderMatched s e i) := by
  obtain ⟨h1, h2, h3, h4, h5⟩ := h
  have hops : s.operationsAliasesOriginal = false := h1 hf
  by_cases hlen : i + 1 <
      (s.existingOps.drop (s.existingOps.findIdx (fun o => o == e))).length
  · rw [stepBuilderMatched_continue s e i hlen]
    unfold BuilderInv
    dsimp only
    exact ⟨fun _ => hops, fun hb => by rw [hops] at hb; simp at hb, h3, h4, h5⟩
  · have hle := Nat.not_lt.mp hlen
    by_cases hcase : s.operations = [] ∧ s.existingOps.findIdx (fun o => o == e) = 0
    · rw [stepBuilderMatched_finish_alias s e i hle hcase.1 hcase.2]
      unfold BuilderInv
      dsimp only
      exact ⟨fun hc => by simp at hc, h3, h3, h4, h5⟩
    · rw [stepBuilderMatched_finish_concat s e i hle hcase]
      unfold BuilderInv
      dsimp only
      exact ⟨fun hc => by simp at hc, fun hb => by simp at hb, h3, h4, h5⟩

theorem stepBuilder_inv {orig : List Operation} {s : StepBuilderState}
    (sameOp : Operation → Operation → Bool) (n : Operation) (i : Nat)
    (h : BuilderInv orig s) (hf : s.finished = false) :
    BuilderInv orig (stepBuilder sameOp s n i) := by
  obtain ⟨h1, h2, h3, h4, h5⟩ := h
  have hops : s.operationsAliasesOriginal = false := h1 hf
  cases hfind : findExistingOp s.existingOps n with
  | none =>
    rw [stepBuilder_no_match sameOp s n i hfind]
    unfold BuilderInv
    dsimp only
    exact ⟨fun _ => hops, fun hb => by rw [hops] at hb; simp at hb, h3, h4, h5⟩
  | some e =>
    cases hflag : s.immutableOpCmpDoneOnce with
    | true =>
      rw [stepBuilder_matched_done sameOp s n e i hfind hflag]
      exact stepBuilderMatched_inv e i ⟨h1, h2, h3, h4, h5⟩ hf
    | false =>
      by_cases hbh : e.blockHeight = n.blockHeight
      · cases hsame : sameOp e n with
        | true =>
          rw [stepBuilder_matched_fresh sameOp s n e i hfind hflag hbh hsame]
          refine stepBuilderMatched_inv e i ⟨?_, ?_, ?_, ?_, ?_⟩ hf <;> dsimp only
          · exact fun _ => hops
          · exact h2
          · exact h3
          · intro hc; simp at hc
          · rw [h4 hflag]
        | false =>
          rw [stepBuilder_mismatch sameOp s n e i hfind hflag hbh hsame]
          unfold BuilderInv
          dsimp only
          refine ⟨fun _ => hops, fun hb => by rw [hops] at hb; simp at hb,
            fun hb => by simp at hb, fun hc => by simp at hc, ?_⟩
          rw [h4 hflag]
      · rw [stepBuilder_height_diff sameOp s n e i hfind hflag hbh]
        unfold BuilderInv
        dsimp only
        exact ⟨fun _ => hops, fun hb => by rw [hops] at hb; simp at hb, h3, h4, h5⟩

theorem syncLoop_inv {CO : Type} {orig : List Operation}
    (sameOp : Operation → Operation → Bool) (buildOp : CO → Option Operation)
    (l : List (Nat × CO)) {s : StepBuilderState}
    (h : BuilderInv orig s) (hf : s.finished = false) :
    BuilderInv orig (syncLoop sameOp buildOp l s) := by
  induction l generalizing s with
  | nil => exact h
  | cons p rest ih =>
    obtain ⟨i, co⟩ := p
    cases hb : buildOp co with
    | none => simpa [syncLoop, hb] using ih h hf
    | some n =>
      cases hx : (stepBuilder sameOp s n i).finished with
      | true => simpa [syncLoop, hb, hx] using stepBuilder_inv sameOp n i h hf
      | false =>
        simpa [syncLoop, hb, hx] using ih (stepBuilder_inv sameOp n i h hf) hx

theorem mergeLoop_inv {CO : Type} {orig : List Operation}
    (sameOp : Operation → Operation → Bool) (buildOp : CO → Option Operation)
    (mergeFn : List Operation → Operation)
    (l : List (Nat × CO)) (acc : List Operation) {s : StepBuilderState}
    (h : BuilderInv orig s) (hf : s.finished = false) :
    BuilderInv orig (mergeLoop sameOp buildOp mergeFn l acc s).2 := by
  induction l generalizing s acc with
  | nil => exact h
  | cons p rest ih =>
    obtain ⟨i, co⟩ := p
    cases hb : buildOp co with
    | none => simpa [mergeLoop, hb] using ih acc h hf
    | some op =>
      cases hacc : (match acc with | [] => true | x :: _ => x.hash == op.hash) with
      | true => simpa [mergeLoop, hb, hacc] using ih (acc ++ [op]) h hf
      | false =>
        cases hx : (stepBuilder sameOp s (mergeFn acc) i).finished with
        | true =>
          simpa [mergeLoop, hb, hacc, hx] using
            stepBuilder_inv sameOp (mergeFn acc) i h hf
        | false =>
          simpa [mergeLoop, hb, hacc, hx] using
            ih [op] (stepBuilder_inv sameOp (mergeFn acc) i h hf) hx

/-- Soundness of the synchronous builder's result: if the returned array is
flagged as the caller's own `existingOperations` array it is that very list,
and the external semantic check ran at most once during the call. -/
theorem minimalOperationsBuilderSync_sound {CO : Type}
    (sameOp : Operation → Operation → Bool) (buildOp : CO → Option Operation)
    (ex : List Operation) (cos : List CO) :
    ((minimalOperationsBuilderSync sameOp buildOp ex cos).aliasesExisting = true →
      (minimalOperationsBuilderSync sameOp buildOp ex cos).operations = ex) ∧
    (minimalOperationsBuilderSync sameOp buildOp ex cos).sameOpCalls ≤ 1 := by
  unfold minimalOperationsBuilderSync
  split
  · exact ⟨fun _ => rfl, Nat.zero_le 1⟩
  · have h := syncLoop_inv sameOp buildOp cos.enum.reverse
      (initBuilderState_inv ex) rfl
    exact ⟨fun hb => h.2.1 hb, h.2.2.2.2⟩

/-- Soundness of the suspending builder's result: same as the synchronous
variant, for any optional merger. -/
theorem minimalOperationsBuilder_sound {CO : Type}
    (sameOp : Operation → Operation → Bool) (buildOp : CO → Option Operation)
    (merge : Option (List Operation → Operation))
    (ex : List Operation) (cos : List CO) :
    ((minimalOperationsBuilder sameOp buildOp merge ex cos).aliasesExisting = true →
      (minimalOperationsBuilder sameOp buildOp merge ex cos).operations = ex) ∧
    (minimalOperationsBuilder sameOp buildOp merge ex cos).sameOpCalls ≤ 1 := by
  unfold minimalOperationsBuilder
  split
  · exact ⟨fun _ => rfl, Nat.zero_le 1⟩
  · cases merge with
    | none =>
      have h := syncLoop_inv sameOp buildOp cos.enum.reverse
        (initBuilderState_inv ex) rfl
      exact ⟨fun hb => h.2.1 hb, h.2.2.2.2⟩
    | some mergeFn =>
      dsimp only
      have h := mergeLoop_inv sameOp buildOp mergeFn cos.enum.reverse []
        (initBuilderState_inv ex) rfl
      cases hfin : (mergeLoop sameOp buildOp mergeFn cos.enum.reverse []
          (initBuilderState ex)).2.finished with
      | true =>
        simp only [if_pos rfl]
        exact ⟨fun hb => h.2.1 hb, h.2.2.2.2⟩
      | false =>
        simp only [Bool.false_eq_true, if_false]
        split
        · have h2 := stepBuilder_inv sameOp
            (mergeFn (mergeLoop sameOp buildOp mergeFn cos.enum.reverse []
              (initBuilderState ex)).1) 0 h hfin
          exact ⟨fun hb => h2.2.1 hb, h2.2.2.2.2⟩
        · exact ⟨fun hb => h.2.1 hb, h.2.2.2.2⟩

/-- Modelled from the spec: the external semantic-equality predicate sameOp
(imported from bridge/jsHelpers in the source) deems two operations
identical independently of reference identity; it compares all content
fields and ignores the `ref` identity tag. -/
def sameOpM (a b : Operation) : Bool :=
  a.id == b.id && a.hash == b.hash && a.blockHeight == b.blockHeight &&
    a.payload == b.payload

/-- Characterization of a finishing matched step: the walk stops; with an
empty output and a match at window position 0 the window array itself (alias
bit inherited) becomes the output, otherwise the pushed prefix concatenated
with the cached suffix (fresh array). -/
theorem stepBuilderMatched_finish_spec (s : StepBuilderState) (e : Operation) (i : Nat)
    (hrest : (s.existingOps.drop (s.existingOps.findIdx (fun o => o == e))).length ≤ i + 1) :
    (stepBuilderMatched s e i).finished = true ∧
    ((s.operations = [] ∧ s.existingOps.findIdx (fun o => o == e) = 0) →
      (stepBuilderMatched s e i).operations = s.existingOps ∧
      (stepBuilderMatched s e i).operationsAliasesOriginal =
        s.existingOpsAliasesOriginal) ∧
    (¬(s.operations = [] ∧ s.existingOps.findIdx (fun o => o == e) = 0) →
      (stepBuilderMatched s e i).operations =
        s.operations ++ s.existingOps.drop (s.existingOps.findIdx (fun o => o == e)) ∧
      (stepBuilderMatched s e i).operationsAliasesOriginal = false) := by
  by_cases hcase : s.operations = [] ∧ s.existingOps.findIdx (fun o => o == e) = 0
  · rw [stepBuilderMatched_finish_alias s e i hrest hcase.1 hcase.2]
    exact ⟨rfl, fun _ => ⟨rfl, rfl⟩, fun hc => absurd hcase hc⟩
  · rw [stepBuilderMatched_finish_concat s e i hrest hcase]
    exact ⟨rfl, fun hc => absurd hc hcase, fun _ => ⟨rfl, rfl⟩⟩

/-- Claim C1.  In any walk step that reaches a matched existing operation
(id found and the immutability gate passed, i.e. the one-shot flag already
fired, or blockHeight agrees and sameOp succeeds) whose cached suffix is not
longer than the remaining raw entries, the walk finishes; if nothing was
pushed yet and the match is at window position 0 the output is the existing
window array itself with its alias bit (hence, by the two builder soundness
conjuncts, the builders return the very `existingOperations` array
reference); in every other case the output is the pushed prefix concatenated
with the cached suffix, every suffix element being an element (hence the very
reference) of the cached window. -/
theorem minimalOperationsBuilder_finish_reuses_cache :
    (∀ (sameOp : Operation → Operation → Bool) (s : StepBuilderState)
        (n e : Operation) (i : Nat),
      findExistingOp s.existingOps n = some e →
      (s.immutableOpCmpDoneOnce = true ∨
        (e.blockHeight = n.blockHeight ∧ sameOp e n = true)) →
      (s.existingOps.drop (s.existingOps.findIdx (fun o => o == e))).length ≤ i + 1 →
      (stepBuilder sameOp s n i).finished = true ∧
      ((s.operations = [] ∧ s.existingOps.findIdx (fun o => o == e) = 0) →
        (stepBuilder sameOp s n i).operations = s.existingOps ∧
        (stepBuilder sameOp s n i).operationsAliasesOriginal =
          s.existingOpsAliasesOriginal) ∧
      (¬(s.operations = [] ∧ s.existingOps.findIdx (fun o => o == e) = 0) →
        (stepBuilder sameOp s n i).operations =
          s.operations ++ s.existingOps.drop (s.existingOps.findIdx (fun o => o == e)) ∧
        (stepBuilder sameOp s n i).operationsAliasesOriginal = false) ∧
      (∀ op ∈ s.existingOps.drop (s.existingOps.findIdx (fun o => o == e)),
        op ∈ s.existingOps)) ∧
    (∀ (CO : Type) (sameOp : Operation → Operation → Bool)
        (buildOp : CO → Option Operation) (ex : List Operation) (cos : List CO),
      (minimalOperationsBuilderSync sameOp buildOp ex cos).aliasesExisting = true →
      (minimalOperationsBuilderSync sameOp buildOp ex cos).operations = ex) ∧
    (∀ (CO : Type) (sameOp : Operation → Operation → Bool)
        (buildOp : CO → Option Operation)
        (merge : Option (List Operation → Operation))
        (ex : List Operation) (cos : List CO),
      (minimalOperationsBuilder sameOp buildOp merge ex cos).aliasesExisting = true →
      (minimalOperationsBuilder sameOp buildOp merge ex cos).operations = ex) := by
  refine ⟨?_, ?_, ?_⟩
  · intro sameOp s n e i hfind hgate hrest
    have hmem : ∀ op ∈ s.existingOps.drop (s.existingOps.findIdx (fun o => o == e)),
        op ∈ s.existingOps := fun op hop => List.drop_subset _ _ hop
    by_cases hflag : s.immutableOpCmpDoneOnce = true
    · rw [stepBuilder_matched_done sameOp s n e i hfind hflag]
      have h := stepBuilderMatched_finish_spec s e i hrest
      exact ⟨h.1, h.2.1, h.2.2, hmem⟩
    · have hflag' : s.immutableOpCmpDoneOnce = false := by
        revert hflag; cases s.immutableOpCmpDoneOnce <;> simp
      rcases hgate with hgate | ⟨hbh, hsame⟩
      · exact absurd hgate hflag
      · rw [stepBuilder_matched_fresh sameOp s n e i hfind hflag' hbh hsame]
        have h := stepBuilderMatched_finish_spec
          { s with immutableOpCmpDoneOnce := true,
                   sameOpCalls := s.sameOpCalls + 1 } e i hrest
        exact ⟨h.1, h.2.1, h.2.2, hmem⟩
  · intro CO sameOp buildOp ex cos
    exact (minimalOperationsBuilderSync_sound sameOp buildOp ex cos).1
  · intro CO sameOp buildOp merge ex cos
    exact (minimalOperationsBuilder_sound sameOp buildOp merge ex cos).1

/-- Cached operations used by concrete walk scenarios. -/
def wOp1 : Operation := { id := "o1", hash := "h1", blockHeight := some 40, payload := 11, ref := 101 }

def wOp2 : Operation := { id := "o2", hash := "h2", blockHeight := some 50, payload := 22, ref := 102 }

/-- A freshly decoded twin of wOp2: same content, different object. -/
def wOp2n : Operation := { id := "o2", hash := "h2", blockHeight := some 50, payload := 22, ref := 202 }

/-- A mid-walk state: cache window [wOp2, wOp1], nothing pushed yet, one-shot
flag already fired. -/
def wState : StepBuilderState :=
  { operations := []
    operationsAliasesOriginal := false
    existingOps := [wOp2, wOp1]
    existingOpsAliasesOriginal := true
    immutableOpCmpDoneOnce := true
    finished := false
    sameOpCalls := 1 }

/-- Witness for C1: at the concrete state wState, meeting the cached twin of
wOp2 with one raw entry left finishes the walk and hands back the cache
window array itself. -/
theorem minimalOperationsBuilder_finish_reuses_cache_witness :
    (stepBuilder sameOpM wState wOp2n 1).finished = true ∧
    (stepBuilder sameOpM wState wOp2n 1).operations = wState.existingOps ∧
    (stepBuilder sameOpM wState wOp2n 1).operationsAliasesOriginal = true := by
  have h := minimalOperationsBuilder_finish_reuses_cache.1 sameOpM wState wOp2n wOp2 1
    (by decide) (Or.inl (by decide)) (by decide)
  have h2 := h.2.1 ⟨rfl, by decide⟩
  exact ⟨h.1, h2.1, h2.2⟩

/-- Claim C2.  When a new operation matches a cached one by id with equal
blockHeight but the full semantic check fails, the step (a total function:
nothing is thrown) empties the whole existing-cache window, pushes the new
operation and leaves the walk running; from an empty window every id lookup
misses, and any further step just pushes its new operation; across a whole
builder call (either variant) the semantic check runs at most once, guarded
by the one-shot immutableOpCmpDoneOnce flag. -/
theorem staleCacheMismatch_recovery :
    (∀ (sameOp : Operation → Operation → Bool) (s : StepBuilderState)
        (n e : Operation) (i : Nat),
      s.immutableOpCmpDoneOnce = false →
      findExistingOp s.existingOps n = some e →
      e.blockHeight = n.blockHeight →
      sameOp e n = false →
      (stepBuilder sameOp s n i).existingOps = [] ∧
      (stepBuilder sameOp s n i).operations = s.operations ++ [n] ∧
      (stepBuilder sameOp s n i).finished = s.finished ∧
      (stepBuilder sameOp s n i).immutableOpCmpDoneOnce = true ∧
      (stepBuilder sameOp s n i).sameOpCalls = s.sameOpCalls + 1) ∧
    (∀ n : Operation, findExistingOp [] n = none) ∧
    (∀ (sameOp : Operation → Operation → Bool) (s : StepBuilderState)
        (n : Operation) (i : Nat),
      s.existingOps = [] →
      stepBuilder sameOp s n i = { s with operations := s.operations ++ [n] }) ∧
    (∀ (CO : Type) (sameOp : Operation → Operation → Bool)
        (buildOp : CO → Option Operation) (ex : List Operation) (cos : List CO),
      (minimalOperationsBuilderSync sameOp buildOp ex cos).sameOpCalls ≤ 1) ∧
    (∀ (CO : Type) (sameOp : Operation → Operation → Bool)
        (buildOp : CO → Option Operation)
        (merge : Option (List Operation → Operation))
        (ex : List Operation) (cos : List CO),
      (minimalOperationsBuilder sameOp buildOp merge ex cos).sameOpCalls ≤ 1) := by
  refine ⟨?_, ?_, ?_, ?_, ?_⟩
  · intro sameOp s n e i hflag hfind hbh hsame
    rw [stepBuilder_mismatch sameOp s n e i hfind hflag hbh hsame]
    exact ⟨rfl, rfl, rfl, rfl, rfl⟩
  · intro n
    rfl
  · intro sameOp s n i hex
    have hfind : findExistingOp s.existingOps n = none := by
      rw [hex]; rfl
    exact stepBuilder_no_match sameOp s n i hfind
  · intro CO sameOp buildOp ex cos
    exact (minimalOperationsBuilderSync_sound sameOp buildOp ex cos).2
  · intro CO sameOp buildOp merge ex cos
    exact (minimalOperationsBuilder_sound sameOp buildOp merge ex cos).2

/-- A cached twin of wOp2 whose payload was derived differently (a stale
cache entry): same id and blockHeight, different content. -/
def wOp2stale : Operation :=
  { id := "o2", hash := "h2", blockHeight := some 50, payload := 99, ref := 102 }

/-- A mid-walk state holding the stale cache window [wOp2stale, wOp1]. -/
def wStateStale : StepBuilderState :=
  { operations := []
    operationsAliasesOriginal := false
    existingOps := [wOp2stale, wOp1]
    existingOpsAliasesOriginal := true
    immutableOpCmpDoneOnce := false
    finished := false
    sameOpCalls := 0 }

/-- Witness for C2: the concrete stale-cache mismatch at wStateStale clears
the window, pushes the new operation, keeps walking, and accounts for the
single semantic check. -/
theorem staleCacheMismatch_recovery_witness :
    (stepBuilder sameOpM wStateStale wOp2n 1).existingOps = [] ∧
    (stepBuilder sameOpM wStateStale wOp2n 1).operations = [wOp2n] ∧
    (stepBuilder sameOpM wStateStale wOp2n 1).finished = false ∧
    (stepBuilder sameOpM wStateStale wOp2n 1).sameOpCalls = 1 := by
  have h := staleCacheMismatch_recovery.1 sameOpM wStateStale wOp2n wOp2stale 1
    rfl (by decide) (by decide) (by decide)
  exact ⟨h.1, h.2.1, h.2.2.1, h.2.2.2.2⟩

/-- Claim C3.  While the one-shot immutability check has not fired, an
id-match whose blockHeight differs from the cached entry is not treated as a
stale-cache mismatch: the new operation is pushed and everything else
(window, flag, finished, sameOp count) is untouched; and in the concrete
pending-to-confirmed scenario (cached [A pending, B]; new data [A confirmed
at height 100, B]) the output has the same length as the cache, with A
replaced by its confirmed version and B reused by reference. -/
theorem blockHeightChange_is_legitimate_update :
    (∀ (sameOp : Operation → Operation → Bool) (s : StepBuilderState)
        (n e : Operation) (i : Nat),
      s.immutableOpCmpDoneOnce = false →
      findExistingOp s.existingOps n = some e →
      e.blockHeight ≠ n.blockHeight →
      stepBuilder sameOp s n i = { s with operations := s.operations ++ [n] }) ∧
    ((minimalOperationsBuilderSync sameOpM some
        [{ id := "a", hash := "ha", blockHeight := none, payload := 1, ref := 1 },
         { id := "b", hash := "hb", blockHeight := some 7, payload := 2, ref := 2 }]
        [{ id := "b", hash := "hb", blockHeight := some 7, payload := 2, ref := 12 },
         { id := "a", hash := "ha", blockHeight := some 100, payload := 1, ref := 11 }]).operations =
      [{ id := "a", hash := "ha", blockHeight := some 100, payload := 1, ref := 11 },
       { id := "b", hash := "hb", blockHeight := some 7, payload := 2, ref := 2 }]) := by
  constructor
  · intro sameOp s n e i hflag hfind hbh
    exact stepBuilder_height_diff sameOp s n e i hfind hflag hbh
  · decide

/-- Witness for C3: the pending operation wOp1 meeting its confirmed twin is
pushed without firing the one-shot flag or clearing the window. -/
theorem blockHeightChange_is_legitimate_update_witness :
    stepBuilder sameOpM wStateStale
        { id := "o1", hash := "h1", blockHeight := some 41, payload := 11, ref := 301 } 0 =
      { wStateStale with operations :=
          [{ id := "o1", hash := "h1", blockHeight := some 41, payload := 11, ref := 301 }] } := by
  exact blockHeightChange_is_legitimate_update.1 sameOpM wStateStale
    { id := "o1", hash := "h1", blockHeight := some 41, payload := 11, ref := 301 }
    wOp1 0 rfl (by decide) (by decide)

theorem syncLoop_skips {CO : Type} (sameOp : Operation → Operation → Bool)
    (buildOp : CO → Option Operation) (l : List (Nat × CO)) (s : StepBuilderState)
    (h : ∀ p ∈ l, buildOp p.2 = none) :
    syncLoop sameOp buildOp l s = s := by
  induction l with
  | nil => rfl
  | cons p rest ih =>
    obtain ⟨i, co⟩ := p
    have hco : buildOp co = none := h (i, co) (List.mem_cons_self _ _)
    simpa [syncLoop, hco] using ih fun q hq => h q (List.mem_cons_of_mem _ hq)

theorem mergeLoop_skips {CO : Type} (sameOp : Operation → Operation → Bool)
    (buildOp : CO → Option Operation) (mergeFn : List Operation → Operation)
    (l : List (Nat × CO)) (acc : List Operation) (s : StepBuilderState)
    (h : ∀ p ∈ l, buildOp p.2 = none) :
    mergeLoop sameOp buildOp mergeFn l acc s = (acc, s) := by
  induction l with
  | nil => rfl
  | cons p rest ih =>
    obtain ⟨i, co⟩ := p
    have hco : buildOp co = none := h (i, co) (List.mem_cons_self _ _)
    simpa [mergeLoop, hco] using ih fun q hq => h q (List.mem_cons_of_mem _ hq)

/-- Claim C10.  With a non-empty cache and no surviving raw record (empty
coreOperations, or every record skipped by the adapter), both builders return
a fresh empty array: the cache is discarded and the `existingOperations`
reference is not reused; the early exit hands back the original (empty)
`existingOperations` reference exactly when both inputs are empty. -/
theorem builder_discards_cache_on_empty_core :
    (∀ (CO : Type) (sameOp : Operation → Operation → Bool)
        (buildOp : CO → Option Operation) (ex : List Operation) (cos : List CO),
      ex ≠ [] → (∀ co ∈ cos, buildOp co = none) →
      minimalOperationsBuilderSync sameOp buildOp ex cos =
        { operations := [], aliasesExisting := false, sameOpCalls := 0 }) ∧
    (∀ (CO : Type) (sameOp : Operation → Operation → Bool)
        (buildOp : CO → Option Operation)
        (merge : Option (List Operation → Operation))
        (ex : List Operation) (cos : List CO),
      ex ≠ [] → (∀ co ∈ cos, buildOp co = none) →
      minimalOperationsBuilder sameOp buildOp merge ex cos =
        { operations := [], aliasesExisting := false, sameOpCalls := 0 }) ∧
    (∀ (CO : Type) (sameOp : Operation → Operation → Bool)
        (buildOp : CO → Option Operation),
      minimalOperationsBuilderSync sameOp buildOp [] ([] : List CO) =
        { operations := [], aliasesExisting := true, sameOpCalls := 0 } ∧
      minimalOperationsBuilder sameOp buildOp none [] ([] : List CO) =
        { operations := [], aliasesExisting := true, sameOpCalls := 0 }) := by
  have hrev : ∀ (CO : Type) (buildOp : CO → Option Operation) (cos : List CO),
      (∀ co ∈ cos, buildOp co = none) →
      ∀ p ∈ cos.enum.reverse, buildOp p.2 = none := by
    intro CO buildOp cos h p hp
    refine h p.2 ?_
    have hp2 : p ∈ cos.enum := List.mem_reverse.mp hp
    have : p.2 ∈ cos.enum.map Prod.snd := List.mem_map_of_mem Prod.snd hp2
    simpa [List.enum_map_snd] using this
  have hguard : ∀ (CO : Type) (ex : List Operation) (cos : List CO), ex ≠ [] →
      ¬((ex.length == 0 && cos.length == 0) = true) := by
    intro CO ex cos hex hc
    have h0 : ex.length = 0 := by simpa using ((Bool.and_eq_true _ _).mp hc).1
    exact hex (List.length_eq_zero.mp h0)
  refine ⟨?_, ?_, ?_⟩
  · intro CO sameOp buildOp ex cos hex hskip
    unfold minimalOperationsBuilderSync
    rw [if_neg (hguard CO ex cos hex)]
    rw [syncLoop_skips sameOp buildOp _ _ (hrev CO buildOp cos hskip)]
    rfl
  · intro CO sameOp buildOp merge ex cos hex hskip
    unfold minimalOperationsBuilder
    rw [if_neg (hguard CO ex cos hex)]
    cases merge with
    | none =>
      dsimp only
      rw [syncLoop_skips sameOp buildOp _ _ (hrev CO buildOp cos hskip)]
      rfl
    | some mergeFn =>
      dsimp only
      rw [mergeLoop_skips sameOp buildOp mergeFn _ _ _ (hrev CO buildOp cos hskip)]
      rfl
  · intro CO sameOp buildOp
    exact ⟨rfl, rfl⟩

/-- Witness for C10: a one-element cache with a two-record raw list entirely
skipped by the adapter yields the fresh empty result in both builders. -/
theorem builder_discards_cache_on_empty_core_witness :
    minimalOperationsBuilderSync sameOpM (fun _ : Nat => (none : Option Operation))
        [wOp1] [5, 6] =
      { operations := [], aliasesExisting := false, sameOpCalls := 0 } ∧
    minimalOperationsBuilder sameOpM (fun _ : Nat => (none : Option Operation))
        (some (fun _ => wOp1)) [wOp1] [5, 6] =
      { operations := [], aliasesExisting := false, sameOpCalls := 0 } := by
  constructor
  · exact builder_discards_cache_on_empty_core.1 Nat sameOpM _ [wOp1] [5, 6]
      (by decide) (fun co _ => rfl)
  · exact builder_discards_cache_on_empty_core.2.1 Nat sameOpM _ _ [wOp1] [5, 6]
      (by decide) (fun co _ => rfl)

/-! ## Same-hash merging scenario (three records of one transaction, then one
other transaction) -/

def mA1 : Operation := { id := "a1", hash := "hA", blockHeight := some 9, payload := 1, ref := 301 }

def mA2 : Operation := { id := "a2", hash := "hA", blockHeight := some 9, payload := 2, ref := 302 }

def mA3 : Operation := { id := "a3", hash := "hA", blockHeight := some 9, payload := 4, ref := 303 }

def mB : Operation := { id := "b", hash := "hB", blockHeight := some 8, payload := 8, ref := 304 }

/-- A caller-supplied merger that concatenates amounts: the merged operation
is the group's first record carrying the sum of the group's payloads (on a
one-element group it returns that record's content). -/
def mMerge (l : List Operation) : Operation :=
  match l with
  | x :: _ => { x with payload := (l.map (fun o => o.payload)).sum }
  | [] => { id := "", hash := "", blockHeight := none, payload := 0, ref := 0 }

/-- Counterexample to claim C5 as stated: feeding the builder the raw records
in newest-first array order [A1, A2, A3, B] (A's three records sharing hash
hA) over an empty cache produces B first and merged-A second, not merged-A
followed by B: the walk consumes the array from its last element to its
first, so a newest-first array is walked oldest-record-first. -/
theorem mergeSameHashOps_order_counterexample :
    (minimalOperationsBuilder sameOpM some (some mMerge) [] [mA1, mA2, mA3, mB]).operations =
      [mB, { mA3 with payload := 7 }] ∧
    (minimalOperationsBuilder sameOpM some (some mMerge) [] [mA1, mA2, mA3, mB]).operations ≠
      [{ mA3 with payload := 7 }, mB] := by
  constructor
  · decide
  · decide

/-- Claim C5, amended: the builder expects `coreOperations` in walk order
(oldest first; the walk runs from the array's last element, the newest
record, down to its first).  Supplied with the sequence whose newest-first
presentation is A, A, A, B, that is the array [B, A1, A2, A3], over an empty
cache, the adjacent same-hash records A3, A2, A1 are accumulated and passed
to the merger as one group while walking, the final accumulated group (B
alone) is flushed through the step builder after the walk, and the output is
exactly two operations: merged-A followed by B, in newest-first order. -/
theorem mergeSameHashOps_order :
    (minimalOperationsBuilder sameOpM some (some mMerge) [] [mB, mA1, mA2, mA3]).operations =
      [mMerge [mA3, mA2, mA1], mMerge [mB]] ∧
    mMerge [mA3, mA2, mA1] = { mA3 with payload := 7 } ∧
    mMerge [mB] = mB ∧
    (minimalOperationsBuilder sameOpM some (some mMerge) [] [mB, mA1, mA2, mA3]).operations.length = 2 := by
  refine ⟨by decide, by decide, by decide, by decide⟩

/-! ## Balance-history cache invalidation -/

theorem getLast_eq_getD_of_ne_nil (l : List Int) (h : l ≠ []) :
    l.getLast? = some (l.getD (l.length - 1) 0) := by
  have hlt : l.length - 1 < l.length := by
    have : 0 < l.length := List.length_pos.mpr h
    omega
  rw [List.getLast?_eq_getElem?, List.getElem?_eq_getElem hlt,
    List.getD_eq_getElem?_getD, List.getElem?_eq_getElem hlt]
  rfl

theorem shouldRefreshBalanceHistoryCache_eq (c a : BalanceHistoryCache) :
    shouldRefreshBalanceHistoryCache c a = true ↔
      (a.HOUR.latestDate ≠ c.HOUR.latestDate ∨
       a.HOUR.balances.length ≠ c.HOUR.balances.length ∨
       (c.HOUR.balances.length ≠ 0 ∧
        a.HOUR.balances.getD (c.HOUR.balances.length - 1) 0 ≠
          c.HOUR.balances.getD (c.HOUR.balances.length - 1) 0)) := by
  unfold shouldRefreshBalanceHistoryCache
  dsimp only
  by_cases hd : a.HOUR.latestDate = c.HOUR.latestDate <;>
    by_cases hl : a.HOUR.balances.length = c.HOUR.balances.length <;>
      by_cases h0 : c.HOUR.balances.length = 0 <;>
        simp [hd, hl, h0, bne_iff_ne]

/-- Claim C6.  The invalidator, consulting only the hourly buckets, replaces
exactly when the latestDate boundaries differ, or the bucket lengths differ,
or both buckets are non-empty with different most-recent values; in every
other case (including two empty buckets) it keeps the cached structure.  The
second conjunct states that only the HOUR resolution is consulted. -/
theorem shouldRefreshBalanceHistoryCache_spec :
    (∀ (c a : BalanceHistoryCache),
      shouldRefreshBalanceHistoryCache c a = true ↔
        (a.HOUR.latestDate ≠ c.HOUR.latestDate ∨
         a.HOUR.balances.length ≠ c.HOUR.balances.length ∨
         (a.HOUR.balances ≠ [] ∧ c.HOUR.balances ≠ [] ∧
          a.HOUR.balances.getLast? ≠ c.HOUR.balances.getLast?))) ∧
    (∀ (c₁ c₂ a₁ a₂ : BalanceHistoryCache), c₁.HOUR = c₂.HOUR → a₁.HOUR = a₂.HOUR →
      shouldRefreshBalanceHistoryCache c₁ a₁ = shouldRefreshBalanceHistoryCache c₂ a₂) := by
  constructor
  · intro c a
    rw [shouldRefreshBalanceHistoryCache_eq c a]
    constructor
    · rintro (h1 | h2 | ⟨h0, h3⟩)
      · exact Or.inl h1
      · exact Or.inr (Or.inl h2)
      · by_cases hl : a.HOUR.balances.length = c.HOUR.balances.length
        · refine Or.inr (Or.inr ⟨?_, ?_, ?_⟩)
          · intro hnil
            rw [hnil] at hl
            exact h0 (by simpa using hl.symm)
          · exact fun hnil => h0 (by rw [hnil]; rfl)
          · have hanil : a.HOUR.balances ≠ [] := by
              intro hnil
              rw [hnil] at hl
              exact h0 (by simpa using hl.symm)
            have hcnil : c.HOUR.balances ≠ [] := fun hnil => h0 (by rw [hnil]; rfl)
            rw [getLast_eq_getD_of_ne_nil _ hanil, getLast_eq_getD_of_ne_nil _ hcnil, hl]
            intro hsome
            exact h3 (by injection hsome)
        · exact Or.inr (Or.inl hl)
    · rintro (h1 | h2 | ⟨hanil, hcnil, hlast⟩)
      · exact Or.inl h1
      · exact Or.inr (Or.inl h2)
      · by_cases hl : a.HOUR.balances.length = c.HOUR.balances.length
        · refine Or.inr (Or.inr ⟨fun h0 => hcnil (List.length_eq_zero.mp h0), ?_⟩)
          rw [getLast_eq_getD_of_ne_nil _ hanil, getLast_eq_getD_of_ne_nil _ hcnil, hl] at hlast
          intro hgd
          exact hlast (by rw [hgd])
        · exact Or.inr (Or.inl hl)
  · intro c₁ c₂ a₁ a₂ hc ha
    unfold shouldRefreshBalanceHistoryCache
    rw [hc, ha]

/-- Hourly bucket fixtures: bhcA is a cached structure; bhcB agrees on the
HOUR boundary and length but differs in the last hourly value (and also in
the DAY bucket); bhcC agrees with bhcB on HOUR but not on DAY or WEEK. -/
def bhcA : BalanceHistoryCache :=
  { HOUR := { latestDate := some 1, balances := [5, 6] }
    DAY := { latestDate := none, balances := [] }
    WEEK := { latestDate := none, balances := [] } }

def bhcB : BalanceHistoryCache :=
  { HOUR := { latestDate := some 1, balances := [5, 7] }
    DAY := { latestDate := some 9, balances := [1] }
    WEEK := { latestDate := none, balances := [] } }

def bhcC : BalanceHistoryCache :=
  { HOUR := { latestDate := some 1, balances := [5, 7] }
    DAY := { latestDate := some 3, balances := [2, 2] }
    WEEK := { latestDate := some 4, balances := [3] } }

/-- Witness for C6: a candidate with the same hourly boundary and length but
a different last value triggers a refresh; and two candidates agreeing on
HOUR (while disagreeing on DAY and WEEK) get the same verdict. -/
theorem shouldRefreshBalanceHistoryCache_spec_witness :
    shouldRefreshBalanceHistoryCache bhcB bhcA = true ∧
    shouldRefreshBalanceHistoryCache bhcB bhcA =
      shouldRefreshBalanceHistoryCache bhcC bhcA := by
  constructor
  · exact (shouldRefreshBalanceHistoryCache_spec.1 bhcB bhcA).mpr
      (Or.inr (Or.inr ⟨by decide, by decide, by decide⟩))
  · exact shouldRefreshBalanceHistoryCache_spec.2 bhcB bhcC bhcA bhcA (by decide) rfl

/-! ## Account model

Embedding of the account data model and of the patchers.  The spec (sections
1 and 6) declares arbitrary-precision decimals and timestamps opaque value
types with equality whose string encoding is owned externally; they are
modelled as wrapped strings whose encode/decode round-trips.  JS string
truthiness is modelled by Option-presence.  Per-family capabilities
(currency registry, resource encode/decode, bridges) are external
collaborators: the registry is modelled total, resource raw and live forms
round-trip, and no bridge capability is registered for other families (the
spec mandates graceful pass-through in that case). -/

/-- Modelled from the spec: arbitrary-precision decimal, an opaque value
type; its decimal-string encoding round-trips. -/
structure BigNumber where
  val : String
deriving DecidableEq, Repr

def BigNumber.ofString (s : String) : BigNumber := ⟨s⟩

def BigNumber.toString (b : BigNumber) : String := b.val

/-- Modelled from the spec: a timestamp, an opaque value type; its ISO-8601
encoding round-trips. -/
structure DateT where
  iso : String
deriving DecidableEq, Repr

def DateT.ofString (s : String) : DateT := ⟨s⟩

def DateT.toISOString (d : DateT) : String := d.iso

/-- Modelled from the spec: the clock value used when a raw record carries no
creation date (Date.now() in the source). -/
def dateNow : String := "1970-01-01T00:00:00.000Z"

structure ProtoNFT where
  id : String
  amount : BigNumber
deriving DecidableEq, Repr

structure ProtoNFTRaw where
  id : String
  amount : String
deriving DecidableEq, Repr

def fromNFTRaw (raw : ProtoNFTRaw) : ProtoNFT :=
  { id := raw.id, amount := BigNumber.ofString raw.amount }

/-- The currency family of an account (account.currency.family in the
source); `other` stands for every family reaching the default switch branch. -/
inductive Family
  | bitcoin
  | polkadot
  | zilliqa
  | crypto_org
  | other
deriving DecidableEq, Repr

/-- Bitcoin family resources; utxo records are opaque, compared by deep
equality in the source. -/
structure BitcoinResources where
  utxos : List String
deriving DecidableEq, Repr

structure BitcoinResourcesRaw where
  utxos : List String
deriving DecidableEq, Repr

def fromBitcoinResourcesRaw (raw : BitcoinResourcesRaw) : BitcoinResources :=
  { utxos := raw.utxos }

/-- reconciliation.ts areSameResources: lodash isEqual, i.e. structural
equality of the raw forms (opaque resource payloads are modelled as
strings). -/
def areSameResources (a b : String) : Bool := a == b

/-- Modelled from the spec: the per-family capability that encodes live
polkadot resources back to raw form; raw and live forms round-trip. -/
def toPolkadotResourcesRaw (r : String) : String := r

/-- Modelled from the spec: decode of raw polkadot resources. -/
def fromPolkadotResourcesRaw (r : String) : String := r

def toZilliqaResourcesRaw (r : String) : String := r

def fromZilliqaResourcesRaw (r : String) : String := r

def toCryptoOrgResourcesRaw (r : String) : String := r

def fromCryptoOrgResourcesRaw (r : String) : String := r

/-- Modelled from the spec: the balance-history generator of the
coin-framework (external); a deterministic function of the operation list. -/
def generateHistoryFromOperations (ops : List Operation) : BalanceHistoryCache :=
  { HOUR := { latestDate := none, balances := ops.map (fun o => (o.payload : Int)) }
    DAY := { latestDate := none, balances := [] }
    WEEK := { latestDate := none, balances := [] } }

/-- Modelled from the spec: the token registry is an external collaborator;
every token id is known in the model. -/
def findTokenById (_tokenId : String) : Bool := true

/-- JS `x || d` for an optional numeric field (undefined and 0 are falsy). -/
def jsOrNat (o : Option Nat) (d : Nat) : Nat :=
  match o with
  | some n => if n = 0 then d else n
  | none => d

/-- JS `a !== b` between a number and an optional number. -/
def neqOptNat (a : Nat) (b : Option Nat) : Bool :=
  match b with
  | some n => a != n
  | none => true

/-- JS truthiness of an optional numeric field. -/
def truthyNat (b : Option Nat) : Bool :=
  match b with
  | some n => n != 0
  | none => false

/-- part_000 fromOperationRaw: decode of one raw operation
(commonFromOperationRaw plus family extra decoding, both external).  The
decode is deterministic; the account id and nested sub-operation data only
land in fields folded into `payload`, and freshly decoded operations carry
identity tag 0 (their object identity plays no role in any comparison the
engine makes). -/
def fromOperationRaw (raw : OperationRaw) (_accountId : String) : Operation :=
  { id := raw.id, hash := raw.hash, blockHeight := raw.blockHeight,
    payload := raw.payload, ref := 0 }

/-- reconciliation.ts patchOperations: run the synchronous minimal builder
over the raw list reversed (updated.slice(0).reverse()), decoding each record
with fromOperationRaw; the external sameOp is the modelled sameOpM. -/
def patchOperations (operations : List Operation) (updated : List OperationRaw)
    (accountId : String) : BuilderResult :=
  minimalOperationsBuilderSync sameOpM
    (fun raw => some (fromOperationRaw raw accountId)) operations updated.reverse

/-- A sub-account (TokenAccount or ChildAccount), flattened as in the JS
duck-typed union: `type` is the discriminant, token-only and child-only
fields are optional. -/
structure SubAccount where
  type : String
  id : String
  parentId : String
  token : Option String
  currency : Option String
  name : Option String
  address : Option String
  starred : Bool
  balance : BigNumber
  spendableBalance : Option BigNumber
  compoundBalance : Option BigNumber
  approvals : Option (List String)
  operations : List Operation
  pendingOperations : List Operation
  operationsCount : Nat
  creationDate : DateT
  balanceHistoryCache : BalanceHistoryCache
deriving DecidableEq, Repr

structure SubAccountRaw where
  type : String
  id : String
  parentId : String
  tokenId : Option String
  currencyId : Option String
  name : Option String
  address : Option String
  starred : Option Bool
  balance : String
  spendableBalance : Option String
  compoundBalance : Option String
  approvals : Option (List String)
  operations : List OperationRaw
  pendingOperations : List OperationRaw
  operationsCount : Option Nat
  creationDate : Option String
  balanceHistoryCache : Option BalanceHistoryCache
deriving DecidableEq, Repr

/-- part_000 fromTokenAccountRaw.  The token is resolved through the (total)
registry; compoundBalance is not read by this conversion in the source; the
balance history cache is overwritten by the generated one. -/
def fromTokenAccountRaw (raw : SubAccountRaw) : SubAccount :=
  let operations := raw.operations.map (fun op => fromOperationRaw op raw.id)
  let pendingOperations := raw.pendingOperations.map (fun op => fromOperationRaw op raw.id)
  { type := "TokenAccount"
    id := raw.id
    parentId := raw.parentId
    token := some (raw.tokenId.getD "")
    currency := none
    name := none
    address := none
    starred := raw.starred.getD false
    balance := BigNumber.ofString raw.balance
    spendableBalance := some (match raw.spendableBalance with
      | some s => BigNumber.ofString s
      | none => BigNumber.ofString raw.balance)
    compoundBalance := none
    approvals := raw.approvals
    operations := operations
    pendingOperations := pendingOperations
    operationsCount := jsOrNat raw.operationsCount raw.operations.length
    creationDate := DateT.ofString (raw.creationDate.getD dateNow)
    balanceHistoryCache := generateHistoryFromOperations operations }

/-- part_000 fromChildAccountRaw. -/
def fromChildAccountRaw (raw : SubAccountRaw) : SubAccount :=
  let operations := raw.operations.map (fun op => fromOperationRaw op raw.id)
  let pendingOperations := raw.pendingOperations.map (fun op => fromOperationRaw op raw.id)
  { type := "ChildAccount"
    id := raw.id
    parentId := raw.parentId
    token := none
    currency := some (raw.currencyId.getD "")
    name := raw.name
    address := raw.address
    starred := raw.starred.getD false
    balance := BigNumber.ofString raw.balance
    spendableBalance := none
    compoundBalance := none
    approvals := none
    operations := operations
    pendingOperations := pendingOperations
    operationsCount := jsOrNat raw.operationsCount raw.operations.length
    creationDate := DateT.ofString (raw.creationDate.getD dateNow)
    balanceHistoryCache := generateHistoryFromOperations operations }

/-- part_000 fromSubAccountRaw: dispatch on the `type` discriminant;
an unrecognized discriminant is a hard failure. -/
def fromSubAccountRaw (raw : SubAccountRaw) : Except String SubAccount :=
  if raw.type == "ChildAccountRaw" then Except.ok (fromChildAccountRaw raw)
  else if raw.type == "TokenAccountRaw" then Except.ok (fromTokenAccountRaw raw)
  else Except.error ("invalid raw.type=" ++ raw.type)

/-- The root account.  Fields the patcher never consults (derivation data,
units, swap history, ...) are omitted; `currencyFamily` stands for the family
of the resolved currency. -/
structure Account where
  id : String
  name : String
  starred : Bool
  used : Bool
  xpub : Option String
  currencyFamily : Family
  subAccounts : Option (List SubAccount)
  operations : List Operation
  pendingOperations : List Operation
  operationsCount : Nat
  balance : BigNumber
  spendableBalance : BigNumber
  lastSyncDate : DateT
  creationDate : DateT
  freshAddress : String
  freshAddressPath : String
  blockHeight : Nat
  syncHash : Option String
  balanceHistoryCache : BalanceHistoryCache
  bitcoinResources : Option BitcoinResources
  polkadotResources : Option String
  zilliqaResources : Option String
  cryptoOrgResources : Option String
  nfts : Option (List ProtoNFT)
deriving DecidableEq, Repr

structure AccountRaw where
  id : String
  name : String
  starred : Option Bool
  used : Option Bool
  xpub : Option String
  currencyFamily : Family
  subAccounts : Option (List SubAccountRaw)
  operations : List OperationRaw
  pendingOperations : List OperationRaw
  operationsCount : Option Nat
  balance : String
  spendableBalance : Option String
  lastSyncDate : String
  creationDate : Option String
  freshAddress : String
  freshAddressPath : String
  blockHeight : Nat
  syncHash : Option String
  balanceHistoryCache : Option BalanceHistoryCache
  bitcoinResources : Option BitcoinResourcesRaw
  polkadotResources : Option String
  zilliqaResources : Option String
  cryptoOrgResources : Option String
  nfts : Option (List ProtoNFTRaw)
deriving DecidableEq, Repr

/-- Modelled from the spec: the account-emptiness helper (external, used only
to backfill the legacy `used` flag). -/
def isAccountEmpty (a : Account) : Bool := a.operations.isEmpty

/-- part_000 fromAccountRaw.  Token sub-accounts whose token is unknown are
skipped (the registry is total in the model, so none are); other raw
sub-account records go through the fallible fromSubAccountRaw.  The balance
history cache is overwritten by the generated one; family resources are
assigned by external bridges of which none is registered in the model. -/
def fromAccountRaw (rawAccount : AccountRaw) : Except String Account := do
  let subAccounts ← match rawAccount.subAccounts with
    | none => pure (none : Option (List SubAccount))
    | some l => do
        let subs ← l.mapM (fun ta =>
          if ta.type == "TokenAccountRaw" then
            if findTokenById (ta.tokenId.getD "") then
              pure (some (fromTokenAccountRaw ta))
            else
              pure none
          else do
            let s ← fromSubAccountRaw ta
            pure (some s))
        pure (some (subs.filterMap id))
  let operations := rawAccount.operations.map (fun op => fromOperationRaw op rawAccount.id)
  let pendingOperations :=
    rawAccount.pendingOperations.map (fun op => fromOperationRaw op rawAccount.id)
  let res : Account :=
    { id := rawAccount.id
      name := rawAccount.name
      starred := rawAccount.starred.getD false
      used := false
      xpub := rawAccount.xpub
      currencyFamily := rawAccount.currencyFamily
      subAccounts := subAccounts
      operations := operations
      pendingOperations := pendingOperations
      operationsCount := jsOrNat rawAccount.operationsCount rawAccount.operations.length
      balance := BigNumber.ofString rawAccount.balance
      spendableBalance :=
        BigNumber.ofString (rawAccount.spendableBalance.getD rawAccount.balance)
      lastSyncDate := DateT.ofString rawAccount.lastSyncDate
      creationDate := DateT.ofString (rawAccount.creationDate.getD dateNow)
      freshAddress := rawAccount.freshAddress
      freshAddressPath := rawAccount.freshAddressPath
      blockHeight := rawAccount.blockHeight
      syncHash := rawAccount.syncHash
      balanceHistoryCache := generateHistoryFromOperations operations
      bitcoinResources := none
      polkadotResources := none
      zilliqaResources := none
      cryptoOrgResources := none
      nfts := rawAccount.nfts.map (fun l => l.map fromNFTRaw) }
  pure { res with used := match rawAccount.used with
    | some u => u
    | none => !(isAccountEmpty res) }

/-- reconciliation.ts shouldRefreshBitcoinResources. -/
def shouldRefreshBitcoinResources (updatedRaw : AccountRaw) (account : Account) : Bool :=
  match updatedRaw.bitcoinResources with
  | none => false
  | some raw =>
    match account.bitcoinResources with
    | none => true
    | some existing =>
      if updatedRaw.blockHeight != account.blockHeight then true
      else if updatedRaw.operations.length != account.operations.length then true
      else if raw.utxos.length != existing.utxos.length then true
      else !(raw.utxos == existing.utxos)

/-- Patched nested operation list of a sub-account. -/
def subOpsPatch (account : SubAccount) (updatedRaw : SubAccountRaw) : BuilderResult :=
  patchOperations account.operations updatedRaw.operations updatedRaw.id

def subPendPatch (account : SubAccount) (updatedRaw : SubAccountRaw) : BuilderResult :=
  patchOperations account.pendingOperations updatedRaw.pendingOperations updatedRaw.id

/-- Condition of the operationsCount update of patchSubAccount
(`account.operationsCount !== updatedRaw.operationsCount && updatedRaw.operationsCount`). -/
def subCondCount (account : SubAccount) (updatedRaw : SubAccountRaw) : Bool :=
  neqOptNat account.operationsCount updatedRaw.operationsCount &&
    truthyNat updatedRaw.operationsCount

def subCondCreation (account : SubAccount) (updatedRaw : SubAccountRaw) : Bool :=
  match updatedRaw.creationDate with
  | some s => s != account.creationDate.toISOString
  | none => false

/-- `account.operations !== operations`: the builder produced a fresh array. -/
def subCondOps (account : SubAccount) (updatedRaw : SubAccountRaw) : Bool :=
  !(subOpsPatch account updatedRaw).aliasesExisting

def subCondPend (account : SubAccount) (updatedRaw : SubAccountRaw) : Bool :=
  !(subPendPatch account updatedRaw).aliasesExisting

def subCondBal (account : SubAccount) (updatedRaw : SubAccountRaw) : Bool :=
  updatedRaw.balance != account.balance.toString

/-- The token-only field guard.  The source tests
`next.type === "TokenAccount" && account.type === "TokenAccount" &&
updatedRaw.type === "TokenAccountRaw"`; `type` is never patched, so
`next.type` always equals `account.type` and the double check collapses. -/
def subTokenGuard (account : SubAccount) (updatedRaw : SubAccountRaw) : Bool :=
  account.type == "TokenAccount" && updatedRaw.type == "TokenAccountRaw"

def subCondSp (account : SubAccount) (updatedRaw : SubAccountRaw) : Bool :=
  subTokenGuard account updatedRaw &&
    (updatedRaw.spendableBalance != account.spendableBalance.map (fun b => b.toString))

def subCondCb (account : SubAccount) (updatedRaw : SubAccountRaw) : Bool :=
  subTokenGuard account updatedRaw &&
    (updatedRaw.compoundBalance != account.compoundBalance.map (fun b => b.toString))

def subCondAp (account : SubAccount) (updatedRaw : SubAccountRaw) : Bool :=
  subTokenGuard account updatedRaw &&
    (match updatedRaw.approvals with
     | some aps => !(some aps == account.approvals)
     | none => false)

def subCondBhc (account : SubAccount) (updatedRaw : SubAccountRaw) : Bool :=
  match updatedRaw.balanceHistoryCache with
  | some b => shouldRefreshBalanceHistoryCache b account.balanceHistoryCache
  | none => false

/-- Disjunction of every changed-setting condition of patchSubAccount. -/
def subChangedF (account : SubAccount) (updatedRaw : SubAccountRaw) : Bool :=
  subCondCount account updatedRaw || subCondCreation account updatedRaw ||
  subCondOps account updatedRaw || subCondPend account updatedRaw ||
  subCondBal account updatedRaw || subCondSp account updatedRaw ||
  subCondCb account updatedRaw || subCondAp account updatedRaw ||
  subCondBhc account updatedRaw

/-- The candidate object built by patchSubAccount ({...account} with each
field replaced when its condition fired; each field is assigned at most once
and every comparison targets the cached account, so the sequential source
updates and this single literal agree). -/
def subNext (account : SubAccount) (updatedRaw : SubAccountRaw) : SubAccount :=
  { account with
    operationsCount := if subCondCount account updatedRaw then
        updatedRaw.operationsCount.getD 0 else account.operationsCount
    creationDate := if subCondCreation account updatedRaw then
        DateT.ofString (updatedRaw.creationDate.getD "") else account.creationDate
    operations := if subCondOps account updatedRaw then
        (subOpsPatch account updatedRaw).operations else account.operations
    pendingOperations := if subCondPend account updatedRaw then
        (subPendPatch account updatedRaw).operations else account.pendingOperations
    balance := if subCondBal account updatedRaw then
        BigNumber.ofString updatedRaw.balance else account.balance
    spendableBalance := if subCondSp account updatedRaw then
        some (BigNumber.ofString (updatedRaw.spendableBalance.getD updatedRaw.balance))
      else account.spendableBalance
    compoundBalance := if subCondCb account updatedRaw then
        updatedRaw.compoundBalance.map BigNumber.ofString else account.compoundBalance
    approvals := if subCondAp account updatedRaw then
        updatedRaw.approvals else account.approvals
    balanceHistoryCache := if subCondBhc account updatedRaw then
        (updatedRaw.balanceHistoryCache.getD account.balanceHistoryCache)
      else account.balanceHistoryCache }

/-- The field-by-field part of reconciliation.ts patchSubAccount (after the
identity guard): returns the patched sub-account together with the flag
telling whether the returned object is the cached `account` argument itself
(true exactly when nothing changed). -/
def patchSubAccountFields (account : SubAccount) (updatedRaw : SubAccountRaw) :
    SubAccount × Bool :=
  if subChangedF account updatedRaw then (subNext account updatedRaw, false)
  else (account, true)

/-- reconciliation.ts patchSubAccount: a missing cached sub-account or a
diverging id or parentId means a full rebuild through the fallible
fromSubAccountRaw (the boolean is false: a fresh object); otherwise field
patching.  The returned boolean is true exactly when the cached object
itself is returned. -/
def patchSubAccount (account : Option SubAccount) (updatedRaw : SubAccountRaw) :
    Except String (SubAccount × Bool) :=
  match account with
  | none => (fromSubAccountRaw updatedRaw).map (fun s => (s, false))
  | some account =>
    if account.id != updatedRaw.id || account.parentId != updatedRaw.parentId then
      (fromSubAccountRaw updatedRaw).map (fun s => (s, false))
    else
      Except.ok (patchSubAccountFields account updatedRaw)

/-- Patched operation list of the root account. -/
def accOpsPatch (account : Account) (updatedRaw : AccountRaw) : BuilderResult :=
  patchOperations account.operations updatedRaw.operations updatedRaw.id

def accPendPatch (account : Account) (updatedRaw : AccountRaw) : BuilderResult :=
  patchOperations account.pendingOperations updatedRaw.pendingOperations updatedRaw.id

/-- `subAccounts && account.subAccounts !== subAccounts`: the sub-account
block produced a list that is not the account's own array. -/
def accCondSub (subAccPatch : Option (List SubAccount × Bool)) : Bool :=
  match subAccPatch with
  | some (_, sameArr) => !sameArr
  | none => false

def accCondOps (account : Account) (updatedRaw : AccountRaw) : Bool :=
  !(accOpsPatch account updatedRaw).aliasesExisting

def accCondCount (account : Account) (updatedRaw : AccountRaw) : Bool :=
  neqOptNat account.operationsCount updatedRaw.operationsCount &&
    truthyNat updatedRaw.operationsCount

def accCondPend (account : Account) (updatedRaw : AccountRaw) : Bool :=
  !(accPendPatch account updatedRaw).aliasesExisting

def accCondBal (account : Account) (updatedRaw : AccountRaw) : Bool :=
  updatedRaw.balance != account.balance.toString

def accCondSp (account : Account) (updatedRaw : AccountRaw) : Bool :=
  updatedRaw.spendableBalance != some account.spendableBalance.toString

def accCondSync (account : Account) (updatedRaw : AccountRaw) : Bool :=
  updatedRaw.lastSyncDate != account.lastSyncDate.toISOString

def accCondCreation (account : Account) (updatedRaw : AccountRaw) : Bool :=
  match updatedRaw.creationDate with
  | some s => s != account.creationDate.toISOString
  | none => false

def accCondFresh (account : Account) (updatedRaw : AccountRaw) : Bool :=
  account.freshAddress != updatedRaw.freshAddress

def accCondFreshPath (account : Account) (updatedRaw : AccountRaw) : Bool :=
  account.freshAddressPath != updatedRaw.freshAddressPath

def accCondHeight (account : Account) (updatedRaw : AccountRaw) : Bool :=
  account.blockHeight != updatedRaw.blockHeight

def accCondHash (account : Account) (updatedRaw : AccountRaw) : Bool :=
  account.syncHash != updatedRaw.syncHash

def accCondBhc (account : Account) (updatedRaw : AccountRaw) : Bool :=
  match updatedRaw.balanceHistoryCache with
  | some b => shouldRefreshBalanceHistoryCache b account.balanceHistoryCache
  | none => false

/-- The bitcoin family branch installs rebuilt resources under this
condition without merging anything into `changed` (the source omission). -/
def accCondBtc (account : Account) (updatedRaw : AccountRaw) : Bool :=
  (account.currencyFamily == Family.bitcoin) &&
    shouldRefreshBitcoinResources updatedRaw account

def accCondPolk (account : Account) (updatedRaw : AccountRaw) : Bool :=
  (account.currencyFamily == Family.polkadot) &&
    (match updatedRaw.polkadotResources with
     | some r =>
       match account.polkadotResources with
       | none => true
       | some e => !(areSameResources (toPolkadotResourcesRaw e) r)
     | none => false)

def accCondZil (account : Account) (updatedRaw : AccountRaw) : Bool :=
  (account.currencyFamily == Family.zilliqa) &&
    (match updatedRaw.zilliqaResources with
     | some r =>
       match account.zilliqaResources with
       | none => true
       | some e => !(areSameResources (toZilliqaResourcesRaw e) r)
     | none => false)

def accCondOrg (account : Account) (updatedRaw : AccountRaw) : Bool :=
  (account.currencyFamily == Family.crypto_org) &&
    (match updatedRaw.cryptoOrgResources with
     | some r =>
       match account.cryptoOrgResources with
       | none => true
       | some e => !(areSameResources (toCryptoOrgResourcesRaw e) r)
     | none => false)

def accCondNftDel (account : Account) (updatedRaw : AccountRaw) : Bool :=
  updatedRaw.nfts.isNone && account.nfts.isSome

def accCondNftSet (account : Account) (updatedRaw : AccountRaw) : Bool :=
  !(accCondNftDel account updatedRaw) &&
    !(account.nfts == updatedRaw.nfts.map (fun l => l.map fromNFTRaw))

/-- Disjunction of every changed-setting condition of patchAccount.  The
bitcoin resource refresh is deliberately absent: the source never merges it
into `changed`.  The default family branch has no registered bridge
capability in the model (graceful pass-through). -/
def accChangedF (account : Account) (updatedRaw : AccountRaw)
    (subAccPatch : Option (List SubAccount × Bool)) : Bool :=
  accCondSub subAccPatch || accCondOps account updatedRaw ||
  accCondCount account updatedRaw || accCondPend account updatedRaw ||
  accCondBal account updatedRaw || accCondSp account updatedRaw ||
  accCondSync account updatedRaw || accCondCreation account updatedRaw ||
  accCondFresh account updatedRaw || accCondFreshPath account updatedRaw ||
  accCondHeight account updatedRaw || accCondHash account updatedRaw ||
  accCondBhc account updatedRaw || accCondPolk account updatedRaw ||
  accCondZil account updatedRaw || accCondOrg account updatedRaw ||
  accCondNftDel account updatedRaw || accCondNftSet account updatedRaw

/-- The candidate object built by patchAccount ({...account} with each field
replaced when its condition fired; each field is assigned at most once and
every comparison targets the cached account, so the sequential source
updates and this single literal agree).  Bitcoin resources are installed
here even though their condition never reaches `changed`. -/
def accNext (account : Account) (updatedRaw : AccountRaw)
    (subAccPatch : Option (List SubAccount × Bool)) : Account :=
  { account with
    subAccounts := if accCondSub subAccPatch then
        some (subAccPatch.map (fun p => p.1)).iget else account.subAccounts
    operations := if accCondOps account updatedRaw then
        (accOpsPatch account updatedRaw).operations else account.operations
    operationsCount := if accCondCount account updatedRaw then
        updatedRaw.operationsCount.getD 0 else account.operationsCount
    pendingOperations := if accCondPend account updatedRaw then
        (accPendPatch account updatedRaw).operations else account.pendingOperations
    balance := if accCondBal account updatedRaw then
        BigNumber.ofString updatedRaw.balance else account.balance
    spendableBalance := if accCondSp account updatedRaw then
        BigNumber.ofString (updatedRaw.spendableBalance.getD updatedRaw.balance)
      else account.spendableBalance
    lastSyncDate := if accCondSync account updatedRaw then
        DateT.ofString updatedRaw.lastSyncDate else account.lastSyncDate
    creationDate := if accCondCreation account updatedRaw then
        DateT.ofString (updatedRaw.creationDate.getD "") else account.creationDate
    freshAddress := if accCondFresh account updatedRaw then
        updatedRaw.freshAddress else account.freshAddress
    freshAddressPath := if accCondFreshPath account updatedRaw then
        updatedRaw.freshAddressPath else account.freshAddressPath
    blockHeight := if accCondHeight account updatedRaw then
        updatedRaw.blockHeight else account.blockHeight
    syncHash := if accCondHash account updatedRaw then
        updatedRaw.syncHash else account.syncHash
    balanceHistoryCache := if accCondBhc account updatedRaw then
        (updatedRaw.balanceHistoryCache.getD account.balanceHistoryCache)
      else account.balanceHistoryCache
    bitcoinResources := if accCondBtc account updatedRaw then
        updatedRaw.bitcoinResources.map fromBitcoinResourcesRaw
      else account.bitcoinResources
    polkadotResources := if accCondPolk account updatedRaw then
        updatedRaw.polkadotResources.map fromPolkadotResourcesRaw
      else account.polkadotResources
    zilliqaResources := if accCondZil account updatedRaw then
        updatedRaw.zilliqaResources.map fromZilliqaResourcesRaw
      else account.zilliqaResources
    cryptoOrgResources := if accCondOrg account updatedRaw then
        updatedRaw.cryptoOrgResources.map fromCryptoOrgResourcesRaw
      else account.cryptoOrgResources
    nfts := if accCondNftDel account updatedRaw then none
      else if accCondNftSet account updatedRaw then
        updatedRaw.nfts.map (fun l => l.map fromNFTRaw)
      else account.nfts }

/-- The field-by-field part of reconciliation.ts patchAccount (after the id
guard and the sub-account block).  `subAccPatch` carries the result of the
sub-account block: the list to install and whether that list is the cached
account's own subAccounts array.  The returned boolean is true exactly when
the cached account object itself is returned. -/
def patchAccountFields (account : Account) (updatedRaw : AccountRaw)
    (subAccPatch : Option (List SubAccount × Bool)) : Account × Bool :=
  if accChangedF account updatedRaw subAccPatch then
    (accNext account updatedRaw subAccPatch, false)
  else (account, true)

/-- reconciliation.ts patchAccount.  A diverging id means a full rebuild from
raw.  Otherwise, when the raw snapshot carries a sub-account list, each
record is patched against the cached sub-account found by id; the list
counts as changed when the lengths differ or some patched member is a fresh
object, and an unchanged list reinstates the cached array (which is the
account's own array exactly when the account had one).  The returned boolean
is true exactly when the cached account object itself is returned. -/
def patchAccount (account : Account) (updatedRaw : AccountRaw) :
    Except String (Account × Bool) :=
  if account.id != updatedRaw.id then
    (fromAccountRaw updatedRaw).map (fun a => (a, false))
  else do
    let subAccPatch : Option (List SubAccount × Bool) ←
      match updatedRaw.subAccounts with
      | none => pure (none : Option (List SubAccount × Bool))
      | some l => do
          let existingSubAccounts := account.subAccounts.getD []
          let patched ← l.mapM (fun ta =>
            patchSubAccount (existingSubAccounts.find? (fun t => t.id == ta.id)) ta)
          let subAccountsChanged :=
            l.length != existingSubAccounts.length || patched.any (fun p => !p.2)
          if subAccountsChanged then
            pure (some (patched.map (fun p => p.1), false))
          else
            pure (some (existingSubAccounts, account.subAccounts.isSome))
    pure (patchAccountFields account updatedRaw subAccPatch)

deriving instance DecidableEq for Except

/-! ## Concrete accounts used by the patcher scenarios -/

def emptyBhc : BalanceHistoryCache :=
  { HOUR := { latestDate := none, balances := [] }
    DAY := { latestDate := none, balances := [] }
    WEEK := { latestDate := none, balances := [] } }

/-- A cached bitcoin account holding one utxo. -/
def btcAccount : Account :=
  { id := "acc", name := "n", starred := false, used := true, xpub := none,
    currencyFamily := Family.bitcoin, subAccounts := none, operations := [],
    pendingOperations := [], operationsCount := 0,
    balance := BigNumber.ofString "5", spendableBalance := BigNumber.ofString "5",
    lastSyncDate := DateT.ofString "D", creationDate := DateT.ofString "C",
    freshAddress := "f", freshAddressPath := "p", blockHeight := 10,
    syncHash := none, balanceHistoryCache := emptyBhc,
    bitcoinResources := some { utxos := ["u1"] }, polkadotResources := none,
    zilliqaResources := none, cryptoOrgResources := none, nfts := none }

/-- A raw snapshot agreeing with btcAccount on every compared field except
the bitcoin resources (two utxos instead of one). -/
def btcRaw : AccountRaw :=
  { id := "acc", name := "n", starred := some false, used := some true, xpub := none,
    currencyFamily := Family.bitcoin, subAccounts := none, operations := [],
    pendingOperations := [], operationsCount := none, balance := "5",
    spendableBalance := some "5", lastSyncDate := "D", creationDate := some "C",
    freshAddress := "f", freshAddressPath := "p", blockHeight := 10,
    syncHash := none, balanceHistoryCache := none,
    bitcoinResources := some { utxos := ["u1", "u2"] }, polkadotResources := none,
    zilliqaResources := none, cryptoOrgResources := none, nfts := none }

/-- The same situation for the polkadot family: resources P1 cached, P2 raw. -/
def polkAccount : Account :=
  { btcAccount with
    currencyFamily := Family.polkadot
    bitcoinResources := none
    polkadotResources := some "P1" }

def polkRaw : AccountRaw :=
  { btcRaw with
    currencyFamily := Family.polkadot
    bitcoinResources := none
    polkadotResources := some "P2" }

/-- A raw token sub-account carrying a compoundBalance. -/
def tokRaw : SubAccountRaw :=
  { type := "TokenAccountRaw", id := "t1", parentId := "acc4",
    tokenId := some "tok", currencyId := none, name := none, address := none,
    starred := some false, balance := "1", spendableBalance := some "1",
    compoundBalance := some "5", approvals := none, operations := [],
    pendingOperations := [], operationsCount := none, creationDate := some "C",
    balanceHistoryCache := none }

/-- A raw snapshot of an account with one token sub-account. -/
def raw4 : AccountRaw :=
  { btcRaw with
    id := "acc4"
    currencyFamily := Family.other
    bitcoinResources := none
    subAccounts := some [tokRaw] }

/-- A cached account whose id differs from raw4's. -/
def acc0 : Account :=
  { btcAccount with
    id := "other"
    currencyFamily := Family.other
    bitcoinResources := none }

/-- A sub-account raw record with an unknown type discriminant. -/
def subRawBogus : SubAccountRaw := { tokRaw with type := "StakeAccountRaw" }

/-- Claim C7.  A cached account whose id differs from the raw snapshot's is
fully rebuilt from raw (the result is fromAccountRaw of the raw snapshot
alone, a fresh object: nothing is carried over from the cache, as the
cache-independence conjunct states); likewise patchSubAccount rebuilds via
fromSubAccountRaw when no cached sub-account exists or when its id or
parentId differs. -/
theorem patch_full_rebuild_on_id_change :
    (∀ (account : Account) (raw : AccountRaw), account.id ≠ raw.id →
      patchAccount account raw = (fromAccountRaw raw).map (fun a => (a, false))) ∧
    (∀ (account account' : Account) (raw : AccountRaw),
      account.id ≠ raw.id → account'.id ≠ raw.id →
      patchAccount account raw = patchAccount account' raw) ∧
    (∀ (e : Option SubAccount) (ta : SubAccountRaw),
      (e = none ∨ ∃ s, e = some s ∧ (s.id ≠ ta.id ∨ s.parentId ≠ ta.parentId)) →
      patchSubAccount e ta = (fromSubAccountRaw ta).map (fun s => (s, false))) := by
  have hroot : ∀ (account : Account) (raw : AccountRaw), account.id ≠ raw.id →
      patchAccount account raw = (fromAccountRaw raw).map (fun a => (a, false)) := by
    intro account raw h
    unfold patchAccount
    rw [if_pos (by simpa [bne_iff_ne] using h)]
  refine ⟨hroot, fun a a' raw h h' => (hroot a raw h).trans (hroot a' raw h').symm, ?_⟩
  intro e ta h
  rcases h with rfl | ⟨s, rfl, hs⟩
  · rfl
  · unfold patchSubAccount
    dsimp only
    rw [if_pos (by simp only [Bool.or_eq_true, bne_iff_ne]; exact hs)]

/-- Witness for C7: the id-diverging pair (acc0, raw4) is a full rebuild from
raw4, independent of the cache, and a missing cached sub-account rebuilds
through fromSubAccountRaw. -/
theorem patch_full_rebuild_on_id_change_witness :
    patchAccount acc0 raw4 = (fromAccountRaw raw4).map (fun a => (a, false)) ∧
    patchAccount acc0 raw4 = patchAccount btcAccount raw4 ∧
    patchSubAccount none tokRaw = (fromSubAccountRaw tokRaw).map (fun s => (s, false)) := by
  refine ⟨patch_full_rebuild_on_id_change.1 acc0 raw4 (by decide),
    patch_full_rebuild_on_id_change.2.1 acc0 btcAccount raw4 (by decide) (by decide),
    patch_full_rebuild_on_id_change.2.2 none tokRaw (Or.inl rfl)⟩

/-- Claim C8 (code bug).  At the concrete bitcoin pair (btcAccount, btcRaw)
only the family resources differ: the refresh predicate fires, the raw
resources decode to something different from the cached ones, and still
patchAccount returns the cached account object itself (boolean true) with
the old resources: the bitcoin switch branch installs the rebuilt resources
on `next` but never merges its verdict into `changed`, unlike every sibling
branch, as the polkadot conjunct shows: there the same resources-only
difference yields a fresh object carrying the rebuilt resources. -/
theorem patchAccount_bitcoin_resources_bug :
    shouldRefreshBitcoinResources btcRaw btcAccount = true ∧
    btcRaw.bitcoinResources.map fromBitcoinResourcesRaw ≠ btcAccount.bitcoinResources ∧
    patchAccount btcAccount btcRaw = Except.ok (btcAccount, true) ∧
    patchAccount polkAccount polkRaw =
      Except.ok ({ polkAccount with polkadotResources := some "P2" }, false) := by
  refine ⟨by decide, by decide, by decide, by decide⟩

/-- Claim C9.  fromSubAccountRaw fails loudly (an error carrying the bad
discriminant, surfaced to the caller rather than a silent skip or default)
for every type other than ChildAccountRaw and TokenAccountRaw, and performs
the corresponding conversion for the two recognized discriminants. -/
theorem fromSubAccountRaw_rejects_unknown_type :
    (∀ raw : SubAccountRaw, raw.type ≠ "ChildAccountRaw" → raw.type ≠ "TokenAccountRaw" →
      fromSubAccountRaw raw = Except.error ("invalid raw.type=" ++ raw.type)) ∧
    (∀ raw : SubAccountRaw, raw.type = "ChildAccountRaw" →
      fromSubAccountRaw raw = Except.ok (fromChildAccountRaw raw)) ∧
    (∀ raw : SubAccountRaw, raw.type = "TokenAccountRaw" →
      fromSubAccountRaw raw = Except.ok (fromTokenAccountRaw raw)) := by
  refine ⟨?_, ?_, ?_⟩
  · intro raw h1 h2
    unfold fromSubAccountRaw
    rw [if_neg (by simpa using h1), if_neg (by simpa using h2)]
  · intro raw h
    unfold fromSubAccountRaw
    rw [if_pos (by simpa using h)]
  · intro raw h
    unfold fromSubAccountRaw
    rw [if_neg (by simp [h]), if_pos (by simpa using h)]

/-- Witness for C9: the unknown discriminant StakeAccountRaw is a hard
failure; the recognized TokenAccountRaw converts. -/
theorem fromSubAccountRaw_rejects_unknown_type_witness :
    fromSubAccountRaw subRawBogus = Except.error "invalid raw.type=StakeAccountRaw" ∧
    fromSubAccountRaw tokRaw = Except.ok (fromTokenAccountRaw tokRaw) := by
  constructor
  · rw [fromSubAccountRaw_rejects_unknown_type.1 subRawBogus (by decide) (by decide)]
    decide
  · exact fromSubAccountRaw_rejects_unknown_type.2.2 tokRaw rfl

/-- Counterexample to claim C4 as stated: patching is not idempotent by
reference for every cached Account and raw snapshot.  With acc0 (id
differing from raw4's), the first patch is a full rebuild a1 =
fromAccountRaw raw4; the second patch of a1 against the very same raw4
returns a fresh object again (boolean false), because fromTokenAccountRaw
drops the raw compoundBalance (a1's token sub-account carries none) while
patchSubAccount compares it (the raw carries "5"), flagging a change on
every patch of a freshly rebuilt account. -/
theorem patchAccount_idempotent_counterexample :
    (patchAccount acc0 raw4).map (fun p => p.2) = Except.ok false ∧
    ((patchAccount acc0 raw4).bind (fun p => patchAccount p.1 raw4)).map (fun p => p.2) =
      Except.ok false ∧
    (patchAccount acc0 raw4).map
        (fun p => (p.1.subAccounts.getD []).map (fun s => s.compoundBalance)) =
      Except.ok [none] ∧
    ((patchAccount acc0 raw4).bind (fun p => patchAccount p.1 raw4)).map
        (fun p => (p.1.subAccounts.getD []).map (fun s => s.compoundBalance)) =
      Except.ok [some (BigNumber.ofString "5")] := by
  refine ⟨by decide, by decide, by decide, by decide⟩

/-! ## Re-running the minimal builder over its own output returns the array
itself (the engine of patch idempotence) -/

/-- The walk list of the builders: indices descend from length - 1 to 0. -/
def DescIdx {CO : Type} (l : List (Nat × CO)) : Prop :=
  l.map Prod.fst = (List.range l.length).reverse

theorem descIdx_enum_reverse {CO : Type} (cos : List CO) : DescIdx cos.enum.reverse := by
  unfold DescIdx
  rw [List.map_reverse, List.enum_map_fst, List.length_reverse, List.enum_length]

theorem descIdx_cons {CO : Type} {p : Nat × CO} {t : List (Nat × CO)}
    (h : DescIdx (p :: t)) : p.1 = t.length ∧ DescIdx t := by
  unfold DescIdx at h ⊢
  rw [List.length_cons, List.range_succ, List.reverse_append] at h
  simp only [List.map_cons, List.reverse_cons, List.reverse_nil, List.nil_append,
    List.singleton_append, List.cons.injEq] at h
  exact ⟨h.1, h.2⟩

theorem stepBuilderMatched_length (s : StepBuilderState) (e : Operation) (i : Nat) :
    (stepBuilderMatched s e i).operations.length ≤ s.operations.length + (i + 1) := by
  by_cases hlen : i + 1 <
      (s.existingOps.drop (s.existingOps.findIdx (fun o => o == e))).length
  · rw [stepBuilderMatched_continue s e i hlen]
    simp only [List.length_append, List.length_cons, List.length_nil]
    omega
  · have hle := Nat.not_lt.mp hlen
    by_cases hcase : s.operations = [] ∧ s.existingOps.findIdx (fun o => o == e) = 0
    · rw [stepBuilderMatched_finish_alias s e i hle hcase.1 hcase.2]
      dsimp only
      rw [hcase.2] at hle
      simpa using Nat.le_trans hle (by omega)
    · rw [stepBuilderMatched_finish_concat s e i hle hcase]
      dsimp only
      rw [List.length_append]
      omega

theorem stepBuilder_length (sameOp : Operation → Operation → Bool)
    (s : StepBuilderState) (n : Operation) (i : Nat) :
    (stepBuilder sameOp s n i).operations.length ≤ s.operations.length + (i + 1) := by
  cases hfind : findExistingOp s.existingOps n with
  | none =>
    rw [stepBuilder_no_match sameOp s n i hfind]
    simp only [List.length_append, List.length_cons, List.length_nil]
    omega
  | some e =>
    cases hflag : s.immutableOpCmpDoneOnce with
    | true =>
      rw [stepBuilder_matched_done sameOp s n e i hfind hflag]
      exact stepBuilderMatched_length s e i
    | false =>
      by_cases hbh : e.blockHeight = n.blockHeight
      · cases hsame : sameOp e n with
        | true =>
          rw [stepBuilder_matched_fresh sameOp s n e i hfind hflag hbh hsame]
          exact stepBuilderMatched_length _ e i
        | false =>
          rw [stepBuilder_mismatch sameOp s n e i hfind hflag hbh hsame]
          simp only [List.length_append, List.length_cons, List.length_nil]
          omega
      · rw [stepBuilder_height_diff sameOp s n e i hfind hflag hbh]
        simp only [List.length_append, List.length_cons, List.length_nil]
        omega

/-- A step that leaves the walk running pushed exactly one operation. -/
theorem stepBuilder_push_of_not_finished (sameOp : Operation → Operation → Bool)
    (s : StepBuilderState) (n : Operation) (i : Nat)
    (hr : (stepBuilder sameOp s n i).finished = false) :
    ∃ x, (stepBuilder sameOp s n i).operations = s.operations ++ [x] := by
  cases hfind : findExistingOp s.existingOps n with
  | none => exact ⟨n, by rw [stepBuilder_no_match sameOp s n i hfind]⟩
  | some e =>
    have hmatched : ∀ s' : StepBuilderState, s'.operations = s.operations →
        s'.existingOps = s.existingOps →
        (stepBuilderMatched s' e i).finished = false →
        ∃ x, (stepBuilderMatched s' e i).operations = s.operations ++ [x] := by
      intro s' hops hex hfin
      by_cases hlen : i + 1 <
          (s'.existingOps.drop (s'.existingOps.findIdx (fun o => o == e))).length
      · exact ⟨e, by rw [stepBuilderMatched_continue s' e i hlen, hops]⟩
      · have hle := Nat.not_lt.mp hlen
        by_cases hcase : s'.operations = [] ∧ s'.existingOps.findIdx (fun o => o == e) = 0
        · rw [stepBuilderMatched_finish_alias s' e i hle hcase.1 hcase.2] at hfin
          cases hfin
        · rw [stepBuilderMatched_finish_concat s' e i hle hcase] at hfin
          cases hfin
    cases hflag : s.immutableOpCmpDoneOnce with
    | true =>
      rw [stepBuilder_matched_done sameOp s n e i hfind hflag] at hr ⊢
      exact hmatched s rfl rfl hr
    | false =>
      by_cases hbh : e.blockHeight = n.blockHeight
      · cases hsame : sameOp e n with
        | true =>
          rw [stepBuilder_matched_fresh sameOp s n e i hfind hflag hbh hsame] at hr ⊢
          exact hmatched _ rfl rfl hr
        | false =>
          exact ⟨n, by rw [stepBuilder_mismatch sameOp s n e i hfind hflag hbh hsame]⟩
      · exact ⟨n, by rw [stepBuilder_height_diff sameOp s n e i hfind hflag hbh]⟩

theorem syncLoop_length {CO : Type} (sameOp : Operation → Operation → Bool)
    (buildOp : CO → Option Operation) (l : List (Nat × CO))
    (hidx : DescIdx l) {s : StepBuilderState} :
    (syncLoop sameOp buildOp l s).operations.length ≤ s.operations.length + l.length := by
  induction l generalizing s with
  | nil => simp [syncLoop]
  | cons p t ih =>
    obtain ⟨hp, ht⟩ := descIdx_cons hidx
    obtain ⟨i, co⟩ := p
    have hp' : i = t.length := hp
    cases hb : buildOp co with
    | none =>
      simp only [syncLoop, hb]
      have := ih ht (s := s)
      simp only [List.length_cons]
      omega
    | some n =>
      simp only [syncLoop, hb]
      cases hfin : (stepBuilder sameOp s n i).finished with
      | true =>
        rw [if_pos rfl]
        have := stepBuilder_length sameOp s n i
        simp only [List.length_cons]
        omega
      | false =>
        rw [if_neg (by simp)]
        have h2 := ih ht (s := stepBuilder sameOp s n i)
        obtain ⟨x, hx⟩ := stepBuilder_push_of_not_finished sameOp s n i hfin
        rw [hx, List.length_append] at h2
        simp only [List.length_cons]
        simp only [List.length_cons, List.length_nil] at h2
        omega

theorem eq_cons_of_head_eq_some {α : Type} {l : List α} {a : α}
    (h : l.head? = some a) : ∃ t, l = a :: t := by
  cases l with
  | nil => cases h
  | cons b t =>
    simp only [List.head?_cons, Option.some.injEq] at h
    exact ⟨t, by rw [h]⟩

theorem head_append_of_ne_nil {α : Type} (l u : List α) (h : l ≠ []) :
    (l ++ u).head? = l.head? := by
  cases l with
  | nil => exact absurd rfl h
  | cons a t => rfl

/-- A step over a non-empty output keeps the first pushed operation first. -/
theorem stepBuilder_head (sameOp : Operation → Operation → Bool)
    (s : StepBuilderState) (n : Operation) (i : Nat)
    (hne : s.operations ≠ []) :
    (stepBuilder sameOp s n i).operations.head? = s.operations.head? := by
  have hmatched : ∀ (s' : StepBuilderState) (x : Operation), s'.operations = s.operations →
      s'.existingOps = s.existingOps →
      (stepBuilderMatched s' x i).operations.head? = s.operations.head? := by
    intro s' x hops hex
    by_cases hlen : i + 1 <
        (s'.existingOps.drop (s'.existingOps.findIdx (fun o => o == x))).length
    · rw [stepBuilderMatched_continue s' x i hlen]
      dsimp only
      rw [hops]
      exact head_append_of_ne_nil _ _ hne
    · have hle := Nat.not_lt.mp hlen
      by_cases hcase : s'.operations = [] ∧
          s'.existingOps.findIdx (fun o => o == x) = 0
      · rw [hops] at hcase
        exact absurd hcase.1 hne
      · rw [stepBuilderMatched_finish_concat s' x i hle hcase]
        dsimp only
        rw [hops]
        exact head_append_of_ne_nil _ _ hne
  cases hfind : findExistingOp s.existingOps n with
  | none =>
    rw [stepBuilder_no_match sameOp s n i hfind]
    exact head_append_of_ne_nil _ _ hne
  | some e =>
    cases hflag : s.immutableOpCmpDoneOnce with
    | true =>
      rw [stepBuilder_matched_done sameOp s n e i hfind hflag]
      exact hmatched s e rfl rfl
    | false =>
      by_cases hbh : e.blockHeight = n.blockHeight
      · cases hsame : sameOp e n with
        | true =>
          rw [stepBuilder_matched_fresh sameOp s n e i hfind hflag hbh hsame]
          exact hmatched _ e rfl rfl
        | false =>
          rw [stepBuilder_mismatch sameOp s n e i hfind hflag hbh hsame]
          exact head_append_of_ne_nil _ _ hne
      · rw [stepBuilder_height_diff sameOp s n e i hfind hflag hbh]
        exact head_append_of_ne_nil _ _ hne

theorem syncLoop_head {CO : Type} (sameOp : Operation → Operation → Bool)
    (buildOp : CO → Option Operation) (l : List (Nat × CO)) {s : StepBuilderState}
    (hne : s.operations ≠ []) :
    (syncLoop sameOp buildOp l s).operations.head? = s.operations.head? := by
  induction l generalizing s with
  | nil => rfl
  | cons p t ih =>
    obtain ⟨i, co⟩ := p
    cases hb : buildOp co with
    | none => simpa [syncLoop, hb] using ih hne
    | some n =>
      simp only [syncLoop, hb]
      have hstep := stepBuilder_head sameOp s n i hne
      cases hfin : (stepBuilder sameOp s n i).finished with
      | true => rw [if_pos rfl]; exact hstep
      | false =>
        rw [if_neg (by simp)]
        have hne2 : (stepBuilder sameOp s n i).operations ≠ [] := by
          intro hnil
          rw [hnil] at hstep
          cases hs : s.operations with
          | nil => exact hne hs
          | cons a t0 => rw [hs] at hstep; cases hstep
        rw [ih hne2, hstep]

/-- Dropping up to the first structural occurrence of a member exposes it. -/
theorem findIdx_drop_cons (l : List Operation) (e : Operation) (hmem : e ∈ l) :
    ∃ t, l.drop (l.findIdx (fun o => o == e)) = e :: t := by
  induction l with
  | nil => cases hmem
  | cons a rest ih =>
    by_cases ha : a = e
    · subst ha
      refine ⟨rest, ?_⟩
      rw [List.findIdx_cons]
      simp
    · have hmem' : e ∈ rest := by
        cases List.mem_cons.mp hmem with
        | inl h => exact absurd h.symm ha
        | inr h => exact h
      obtain ⟨t, ht⟩ := ih hmem'
      refine ⟨t, ?_⟩
      rw [List.findIdx_cons]
      have hba : (a == e) = false := by
        simp only [beq_eq_false_iff_ne, ne_eq]
        exact ha
      rw [hba]
      simpa using ht

/-- The first processed record of a walk with a total adapter determines the
head of the output: the head agrees with the first built operation on id and
blockHeight and is semantically equal to it. -/
theorem syncLoop_first_step {CO : Type} (sameOp : Operation → Operation → Bool)
    (hrefl : ∀ x, sameOp x x = true) (f : CO → Operation)
    (i : Nat) (co : CO) (tail : List (Nat × CO)) (s : StepBuilderState)
    (hops : s.operations = []) (hflag : s.immutableOpCmpDoneOnce = false) :
    ∃ h t, (syncLoop sameOp (fun c => some (f c)) ((i, co) :: tail) s).operations = h :: t ∧
      h.id = (f co).id ∧ h.blockHeight = (f co).blockHeight ∧ sameOp h (f co) = true := by
  simp only [syncLoop]
  set n := f co with hn
  have finish : ∀ (s1 : StepBuilderState) (h₀ : Operation),
      s1.operations.head? = some h₀ →
      h₀.id = n.id → h₀.blockHeight = n.blockHeight → sameOp h₀ n = true →
      ∃ h t, (if s1.finished = true then s1
        else syncLoop sameOp (fun c => some (f c)) tail s1).operations = h :: t ∧
        h.id = n.id ∧ h.blockHeight = n.blockHeight ∧ sameOp h n = true := by
    intro s1 h₀ hh hid hbh hsame
    cases hf1 : s1.finished with
    | true =>
      rw [if_pos rfl]
      obtain ⟨t, ht⟩ := eq_cons_of_head_eq_some hh
      exact ⟨h₀, t, ht, hid, hbh, hsame⟩
    | false =>
      rw [if_neg (by simp)]
      have hne : s1.operations ≠ [] := by
        intro hnil; rw [hnil] at hh; cases hh
      obtain ⟨t, ht⟩ := eq_cons_of_head_eq_some
        ((syncLoop_head sameOp (fun c => some (f c)) tail hne).trans hh)
      exact ⟨h₀, t, ht, hid, hbh, hsame⟩
  cases hfind : findExistingOp s.existingOps n with
  | none =>
    rw [stepBuilder_no_match sameOp s n i hfind]
    exact finish _ n (by rw [hops]; rfl) rfl rfl (hrefl n)
  | some e =>
    have he_mem : e ∈ s.existingOps := List.mem_of_find?_eq_some hfind
    have he_id : e.id = n.id := by
      have := List.find?_some hfind
      simpa [findExistingOp] using this
    by_cases hbh : e.blockHeight = n.blockHeight
    · cases hsame : sameOp e n with
      | false =>
        rw [stepBuilder_mismatch sameOp s n e i hfind hflag hbh hsame]
        exact finish _ n (by rw [hops]; rfl) rfl rfl (hrefl n)
      | true =>
        rw [stepBuilder_matched_fresh sameOp s n e i hfind hflag hbh hsame]
        set s1 : StepBuilderState :=
          { s with immutableOpCmpDoneOnce := true, sameOpCalls := s.sameOpCalls + 1 }
          with hs1
        by_cases hlen : i + 1 <
            (s1.existingOps.drop (s1.existingOps.findIdx (fun o => o == e))).length
        · rw [stepBuilderMatched_continue s1 e i hlen]
          exact finish _ e (by dsimp only [hs1]; rw [hops]; rfl) he_id hbh hsame
        · have hle := Nat.not_lt.mp hlen
          by_cases hj : s1.existingOps.findIdx (fun o => o == e) = 0
          · rw [stepBuilderMatched_finish_alias s1 e i hle (by dsimp only [hs1]; exact hops) hj]
            rw [if_pos rfl]
            obtain ⟨t, ht⟩ := findIdx_drop_cons s.existingOps e he_mem
            have hex : s.existingOps = e :: t := by
              have hj' : s.existingOps.findIdx (fun o => o == e) = 0 := hj
              rw [hj', List.drop_zero] at ht
              exact ht
            exact ⟨e, t, by dsimp only; exact hex, he_id, hbh, hsame⟩
          · rw [stepBuilderMatched_finish_concat s1 e i hle
              (by intro hc; exact hj hc.2)]
            rw [if_pos rfl]
            obtain ⟨t, ht⟩ := findIdx_drop_cons s.existingOps e he_mem
            refine ⟨e, t, ?_, he_id, hbh, hsame⟩
            dsimp only
            rw [hops]
            simpa using ht
    · rw [stepBuilder_height_diff sameOp s n e i hfind hflag hbh]
      exact finish _ n (by rw [hops]; rfl) rfl rfl (hrefl n)

/-- A first step whose new operation matches the head of the cache window
with equal blockHeight and a succeeding semantic check, with the window not
longer than the remaining records, stops immediately and hands back the
window array. -/
theorem stepBuilder_first_match_alias (sameOp : Operation → Operation → Bool)
    (s : StepBuilderState) (n : Operation) (i : Nat)
    (h : Operation) (t : List Operation)
    (hex : s.existingOps = h :: t)
    (hops : s.operations = [])
    (hflag : s.immutableOpCmpDoneOnce = false)
    (hid : h.id = n.id) (hbh : h.blockHeight = n.blockHeight)
    (hsame : sameOp h n = true)
    (hlen : s.existingOps.length ≤ i + 1) :
    stepBuilder sameOp s n i =
      { s with operations := s.existingOps,
               operationsAliasesOriginal := s.existingOpsAliasesOriginal,
               immutableOpCmpDoneOnce := true,
               sameOpCalls := s.sameOpCalls + 1,
               finished := true } := by
  have hfind : findExistingOp s.existingOps n = some h := by
    rw [hex]
    unfold findExistingOp
    rw [List.find?_cons_of_pos]
    simp [hid]
  rw [stepBuilder_matched_fresh sameOp s n h i hfind hflag hbh hsame]
  generalize hs1 : ({ s with immutableOpCmpDoneOnce := true, sameOpCalls := s.sameOpCalls + 1 } : StepBuilderState) = s1
  have hex1 : s1.existingOps = h :: t := by rw [← hs1]; exact hex
  have hj : s1.existingOps.findIdx (fun o => o == h) = 0 := by
    rw [hex1, List.findIdx_cons]
    simp
  have hops1 : s1.operations = [] := by rw [← hs1]; exact hops
  have hle1 : (s1.existingOps.drop (s1.existingOps.findIdx (fun o => o == h))).length ≤ i + 1 := by
    rw [hj, List.drop_zero, hex1, ← hex]
    exact hlen
  rw [stepBuilderMatched_finish_alias s1 h i hle1 hops1 hj]
  rw [← hs1]

/-- Running the synchronous builder over its own output (same raw records,
total adapter, reflexive semantic equality) finishes immediately on the
first record and hands back the output array itself. -/
theorem minimalOperationsBuilderSync_restab {CO : Type}
    (sameOp : Operation → Operation → Bool) (hrefl : ∀ x, sameOp x x = true)
    (f : CO → Operation) (ex : List Operation) (cos : List CO) :
    (minimalOperationsBuilderSync sameOp (fun c => some (f c))
      ((minimalOperationsBuilderSync sameOp (fun c => some (f c)) ex cos).operations)
      cos).aliasesExisting = true := by
  cases cos with
  | nil =>
    by_cases hex : ex.length = 0
    · have hex' : ex = [] := List.length_eq_zero.mp hex
      subst hex'
      rfl
    · have hrun1 : (minimalOperationsBuilderSync sameOp (fun c => some (f c))
          ex ([] : List CO)).operations = [] := by
        unfold minimalOperationsBuilderSync
        rw [if_neg (by simp [hex])]
        rfl
      rw [hrun1]
      rfl
  | cons c cs =>
    have hne : ((c :: cs).enum.reverse : List (Nat × CO)) ≠ [] := by
      simp
    obtain ⟨q, t', hq⟩ := List.exists_cons_of_ne_nil hne
    obtain ⟨i₀, co₀⟩ := q
    have hdesc := descIdx_enum_reverse (c :: cs)
    rw [hq] at hdesc
    obtain ⟨hi₀, hdt⟩ := descIdx_cons hdesc
    have hwalklen : ((i₀, co₀) :: t').length = (c :: cs).length := by
      rw [← hq]
      simp
    have hi₁ : i₀ + 1 = (c :: cs).length := by
      simp only [List.length_cons] at hwalklen ⊢
      omega
    obtain ⟨h, t, hout, hid, hbh, hsame⟩ := syncLoop_first_step sameOp hrefl f
      i₀ co₀ t' (initBuilderState ex) rfl rfl
    have hlen1 : (syncLoop sameOp (fun c => some (f c)) ((i₀, co₀) :: t')
        (initBuilderState ex)).operations.length ≤ i₀ + 1 := by
      have := syncLoop_length sameOp (fun c => some (f c)) ((i₀, co₀) :: t')
        hdesc (s := initBuilderState ex)
      simpa [initBuilderState, hwalklen, hi₁] using this
    have hrun1 : (minimalOperationsBuilderSync sameOp (fun c => some (f c))
        ex (c :: cs)).operations = h :: t := by
      unfold minimalOperationsBuilderSync
      rw [if_neg (by simp)]
      rw [hq]
      simpa [builderResult] using hout
    rw [hrun1]
    have hlent : (h :: t).length ≤ i₀ + 1 := by
      rw [← hout]
      exact hlen1
    unfold minimalOperationsBuilderSync
    rw [if_neg (by simp)]
    rw [hq]
    simp only [syncLoop]
    rw [stepBuilder_first_match_alias sameOp (initBuilderState (h :: t)) (f co₀) i₀
      h t rfl rfl rfl hid hbh hsame (by simpa [initBuilderState] using hlent)]
    rw [if_pos rfl]
    rfl

theorem sameOpM_refl (x : Operation) : sameOpM x x = true := by
  simp [sameOpM]

/-- patchOperations over its own output hands back the array itself. -/
theorem patchOperations_restab (ops : List Operation) (updated : List OperationRaw)
    (aid : String) :
    (patchOperations (patchOperations ops updated aid).operations updated aid).aliasesExisting =
      true := by
  unfold patchOperations
  exact minimalOperationsBuilderSync_restab sameOpM sameOpM_refl
    (fun raw => fromOperationRaw raw aid) ops updated.reverse

/-- A comparison-guarded update is stable: re-checking the condition on the
updated value fails, provided it fails on the fresh value. -/
theorem cond_ite_false {α : Type} (C : α → Bool) (v x : α)
    (hv : C v = false) : C (if C x then v else x) = false := by
  cases hx : C x with
  | true => rw [if_pos rfl]; exact hv
  | false => rw [if_neg (by simp)]; exact hx

theorem guard_cond_ite_false {α : Type} (g : Bool) (C : α → Bool) (v x : α)
    (hv : g = true → C v = false) :
    (g && C (if g && C x then v else x)) = false := by
  cases g with
  | false => rfl
  | true =>
    simp only [Bool.true_and]
    exact cond_ite_false C v x (hv rfl)

/-! ### Stability of the sub-account field patch -/

theorem subCondCount_next (e : SubAccount) (ta : SubAccountRaw) :
    subCondCount (subNext e ta) ta = false := by
  exact cond_ite_false
    (fun oc => neqOptNat oc ta.operationsCount && truthyNat ta.operationsCount)
    (ta.operationsCount.getD 0) e.operationsCount (by
      cases hoc : ta.operationsCount with
      | none => simp [truthyNat]
      | some n =>
        by_cases hn : n = 0
        · simp [truthyNat, hn]
        · simp [neqOptNat])

theorem subCondCreation_next (e : SubAccount) (ta : SubAccountRaw) :
    subCondCreation (subNext e ta) ta = false := by
  exact cond_ite_false
    (fun d => (match ta.creationDate with
      | some s => s != DateT.toISOString d
      | none => false : Bool))
    (DateT.ofString (ta.creationDate.getD "")) e.creationDate (by
      cases hcd : ta.creationDate with
      | none => rfl
      | some s => simp [DateT.toISOString, DateT.ofString])

theorem subCondOps_next (e : SubAccount) (ta : SubAccountRaw) :
    subCondOps (subNext e ta) ta = false := by
  exact cond_ite_false
    (fun ops => !(patchOperations ops ta.operations ta.id).aliasesExisting)
    ((patchOperations e.operations ta.operations ta.id).operations) e.operations (by
      show (!(patchOperations (patchOperations e.operations ta.operations ta.id).operations
        ta.operations ta.id).aliasesExisting) = false
      rw [patchOperations_restab]
      rfl)

theorem subCondPend_next (e : SubAccount) (ta : SubAccountRaw) :
    subCondPend (subNext e ta) ta = false := by
  exact cond_ite_false
    (fun ops => !(patchOperations ops ta.pendingOperations ta.id).aliasesExisting)
    ((patchOperations e.pendingOperations ta.pendingOperations ta.id).operations)
    e.pendingOperations (by
      show (!(patchOperations
        (patchOperations e.pendingOperations ta.pendingOperations ta.id).operations
        ta.pendingOperations ta.id).aliasesExisting) = false
      rw [patchOperations_restab]
      rfl)

theorem subCondBal_next (e : SubAccount) (ta : SubAccountRaw) :
    subCondBal (subNext e ta) ta = false := by
  exact cond_ite_false
    (fun b => ta.balance != BigNumber.toString b)
    (BigNumber.ofString ta.balance) e.balance
    (by simp [BigNumber.toString, BigNumber.ofString])

theorem subCondSp_next (e : SubAccount) (ta : SubAccountRaw)
    (hsp : ta.type = "TokenAccountRaw" → ta.spendableBalance.isSome) :
    subCondSp (subNext e ta) ta = false := by
  exact guard_cond_ite_false (subTokenGuard e ta)
    (fun sp => ta.spendableBalance != Option.map (fun b => BigNumber.toString b) sp)
    (some (BigNumber.ofString (ta.spendableBalance.getD ta.balance)))
    e.spendableBalance (by
      intro hg
      have htype : ta.type = "TokenAccountRaw" := by
        have := (Bool.and_eq_true _ _).mp hg
        simpa using this.2
      obtain ⟨s, hs⟩ := Option.isSome_iff_exists.mp (hsp htype)
      simp [hs, BigNumber.toString, BigNumber.ofString])

theorem subCondCb_next (e : SubAccount) (ta : SubAccountRaw) :
    subCondCb (subNext e ta) ta = false := by
  exact guard_cond_ite_false (subTokenGuard e ta)
    (fun cb => ta.compoundBalance != Option.map (fun b => BigNumber.toString b) cb)
    (ta.compoundBalance.map BigNumber.ofString) e.compoundBalance (by
      intro hg
      cases ta.compoundBalance with
      | none => rfl
      | some v => simp [BigNumber.toString, BigNumber.ofString])

theorem subCondAp_next (e : SubAccount) (ta : SubAccountRaw) :
    subCondAp (subNext e ta) ta = false := by
  exact guard_cond_ite_false (subTokenGuard e ta)
    (fun ap => (match ta.approvals with
      | some aps => !(some aps == ap)
      | none => false : Bool))
    ta.approvals e.approvals (by
      intro hg
      cases ta.approvals with
      | none => rfl
      | some aps => simp)

theorem shouldRefreshBalanceHistoryCache_self (b : BalanceHistoryCache) :
    shouldRefreshBalanceHistoryCache b b = false := by
  simp [shouldRefreshBalanceHistoryCache]

theorem subCondBhc_next (e : SubAccount) (ta : SubAccountRaw) :
    subCondBhc (subNext e ta) ta = false := by
  exact cond_ite_false
    (fun bhc => (match ta.balanceHistoryCache with
      | some b => shouldRefreshBalanceHistoryCache b bhc
      | none => false : Bool))
    (ta.balanceHistoryCache.getD e.balanceHistoryCache) e.balanceHistoryCache (by
      cases hb : ta.balanceHistoryCache with
      | none => rfl
      | some b => simpa using shouldRefreshBalanceHistoryCache_self b)

theorem subChangedF_next (e : SubAccount) (ta : SubAccountRaw)
    (hsp : ta.type = "TokenAccountRaw" → ta.spendableBalance.isSome) :
    subChangedF (subNext e ta) ta = false := by
  unfold subChangedF
  rw [subCondCount_next, subCondCreation_next, subCondOps_next, subCondPend_next,
    subCondBal_next, subCondSp_next e ta hsp, subCondCb_next, subCondAp_next,
    subCondBhc_next]
  rfl

/-- Patching the result of a sub-account field patch against the same raw
record changes nothing: the patched object itself is returned. -/
theorem patchSubAccountFields_stab (e : SubAccount) (ta : SubAccountRaw)
    (hsp : ta.type = "TokenAccountRaw" → ta.spendableBalance.isSome) :
    patchSubAccountFields (patchSubAccountFields e ta).1 ta =
      ((patchSubAccountFields e ta).1, true) := by
  cases hch : subChangedF e ta with
  | false =>
    have hp : (patchSubAccountFields e ta).1 = e := by
      unfold patchSubAccountFields
      rw [if_neg (by simp [hch])]
    rw [hp]
    unfold patchSubAccountFields
    rw [if_neg (by simp [hch])]
  | true =>
    have hp : (patchSubAccountFields e ta).1 = subNext e ta := by
      unfold patchSubAccountFields
      rw [if_pos hch]
    rw [hp]
    unfold patchSubAccountFields
    rw [if_neg (by simp [subChangedF_next e ta hsp])]

theorem patchSubAccountFields_id (e : SubAccount) (ta : SubAccountRaw) :
    (patchSubAccountFields e ta).1.id = e.id := by
  unfold patchSubAccountFields
  split <;> rfl

theorem patchSubAccountFields_parentId (e : SubAccount) (ta : SubAccountRaw) :
    (patchSubAccountFields e ta).1.parentId = e.parentId := by
  unfold patchSubAccountFields
  split <;> rfl

/-! ### Stability of the root account field patch -/

theorem accCondOps_next (account : Account) (raw : AccountRaw)
    (sp : Option (List SubAccount × Bool)) :
    accCondOps (accNext account raw sp) raw = false := by
  exact cond_ite_false
    (fun ops => !(patchOperations ops raw.operations raw.id).aliasesExisting)
    ((patchOperations account.operations raw.operations raw.id).operations)
    account.operations (by
      show (!(patchOperations
        (patchOperations account.operations raw.operations raw.id).operations
        raw.operations raw.id).aliasesExisting) = false
      rw [patchOperations_restab]
      rfl)

theorem accCondPend_next (account : Account) (raw : AccountRaw)
    (sp : Option (List SubAccount × Bool)) :
    accCondPend (accNext account raw sp) raw = false := by
  exact cond_ite_false
    (fun ops => !(patchOperations ops raw.pendingOperations raw.id).aliasesExisting)
    ((patchOperations account.pendingOperations raw.pendingOperations raw.id).operations)
    account.pendingOperations (by
      show (!(patchOperations
        (patchOperations account.pendingOperations raw.pendingOperations raw.id).operations
        raw.pendingOperations raw.id).aliasesExisting) = false
      rw [patchOperations_restab]
      rfl)

theorem accCondCount_next (account : Account) (raw : AccountRaw)
    (sp : Option (List SubAccount × Bool)) :
    accCondCount (accNext account raw sp) raw = false := by
  exact cond_ite_false
    (fun oc => neqOptNat oc raw.operationsCount && truthyNat raw.operationsCount)
    (raw.operationsCount.getD 0) account.operationsCount (by
      cases hoc : raw.operationsCount with
      | none => simp [truthyNat]
      | some n =>
        by_cases hn : n = 0
        · simp [truthyNat, hn]
        · simp [neqOptNat])

theorem accCondBal_next (account : Account) (raw : AccountRaw)
    (sp : Option (List SubAccount × Bool)) :
    accCondBal (accNext account raw sp) raw = false := by
  exact cond_ite_false
    (fun b => raw.balance != BigNumber.toString b)
    (BigNumber.ofString raw.balance) account.balance
    (by simp [BigNumber.toString, BigNumber.ofString])

theorem accCondSp_next (account : Account) (raw : AccountRaw)
    (sp : Option (List SubAccount × Bool)) (hsp : raw.spendableBalance.isSome) :
    accCondSp (accNext account raw sp) raw = false := by
  exact cond_ite_false
    (fun b => raw.spendableBalance != some (BigNumber.toString b))
    (BigNumber.ofString (raw.spendableBalance.getD raw.balance)) account.spendableBalance (by
      obtain ⟨s, hs⟩ := Option.isSome_iff_exists.mp hsp
      simp [hs, BigNumber.toString, BigNumber.ofString])

theorem accCondSync_next (account : Account) (raw : AccountRaw)
    (sp : Option (List SubAccount × Bool)) :
    accCondSync (accNext account raw sp) raw = false := by
  exact cond_ite_false
    (fun d => raw.lastSyncDate != DateT.toISOString d)
    (DateT.ofString raw.lastSyncDate) account.lastSyncDate
    (by simp [DateT.toISOString, DateT.ofString])

theorem accCondCreation_next (account : Account) (raw : AccountRaw)
    (sp : Option (List SubAccount × Bool)) :
    accCondCreation (accNext account raw sp) raw = false := by
  exact cond_ite_false
    (fun d => (match raw.creationDate with
      | some s => s != DateT.toISOString d
      | none => false : Bool))
    (DateT.ofString (raw.creationDate.getD "")) account.creationDate (by
      cases hcd : raw.creationDate with
      | none => rfl
      | some s => simp [DateT.toISOString, DateT.ofString])

theorem accCondFresh_next (account : Account) (raw : AccountRaw)
    (sp : Option (List SubAccount × Bool)) :
    accCondFresh (accNext account raw sp) raw = false := by
  exact cond_ite_false (fun a => a != raw.freshAddress)
    raw.freshAddress account.freshAddress (by simp)

theorem accCondFreshPath_next (account : Account) (raw : AccountRaw)
    (sp : Option (List SubAccount × Bool)) :
    accCondFreshPath (accNext account raw sp) raw = false := by
  exact cond_ite_false (fun a => a != raw.freshAddressPath)
    raw.freshAddressPath account.freshAddressPath (by simp)

theorem accCondHeight_next (account : Account) (raw : AccountRaw)
    (sp : Option (List SubAccount × Bool)) :
    accCondHeight (accNext account raw sp) raw = false := by
  exact cond_ite_false (fun a => a != raw.blockHeight)
    raw.blockHeight account.blockHeight (by simp)

theorem accCondHash_next (account : Account) (raw : AccountRaw)
    (sp : Option (List SubAccount × Bool)) :
    accCondHash (accNext account raw sp) raw = false := by
  exact cond_ite_false (fun a => a != raw.syncHash)
    raw.syncHash account.syncHash (by simp)

theorem accCondBhc_next (account : Account) (raw : AccountRaw)
    (sp : Option (List SubAccount × Bool)) :
    accCondBhc (accNext account raw sp) raw = false := by
  exact cond_ite_false
    (fun bhc => (match raw.balanceHistoryCache with
      | some b => shouldRefreshBalanceHistoryCache b bhc
      | none => false : Bool))
    (raw.balanceHistoryCache.getD account.balanceHistoryCache)
    account.balanceHistoryCache (by
      cases hb : raw.balanceHistoryCache with
      | none => rfl
      | some b => simpa using shouldRefreshBalanceHistoryCache_self b)

theorem accCondPolk_next (account : Account) (raw : AccountRaw)
    (sp : Option (List SubAccount × Bool)) :
    accCondPolk (accNext account raw sp) raw = false := by
  exact guard_cond_ite_false (account.currencyFamily == Family.polkadot)
    (fun r0 => (match raw.polkadotResources with
      | some r =>
        match r0 with
        | none => true
        | some e => !(areSameResources (toPolkadotResourcesRaw e) r)
      | none => false : Bool))
    (raw.polkadotResources.map fromPolkadotResourcesRaw) account.polkadotResources (by
      intro hg
      cases hr : raw.polkadotResources with
      | none => rfl
      | some r =>
        simp [fromPolkadotResourcesRaw, toPolkadotResourcesRaw, areSameResources])

theorem accCondZil_next (account : Account) (raw : AccountRaw)
    (sp : Option (List SubAccount × Bool)) :
    accCondZil (accNext account raw sp) raw = false := by
  exact guard_cond_ite_false (account.currencyFamily == Family.zilliqa)
    (fun r0 => (match raw.zilliqaResources with
      | some r =>
        match r0 with
        | none => true
        | some e => !(areSameResources (toZilliqaResourcesRaw e) r)
      | none => false : Bool))
    (raw.zilliqaResources.map fromZilliqaResourcesRaw) account.zilliqaResources (by
      intro hg
      cases hr : raw.zilliqaResources with
      | none => rfl
      | some r =>
        simp [fromZilliqaResourcesRaw, toZilliqaResourcesRaw, areSameResources])

theorem accCondOrg_next (account : Account) (raw : AccountRaw)
    (sp : Option (List SubAccount × Bool)) :
    accCondOrg (accNext account raw sp) raw = false := by
  exact guard_cond_ite_false (account.currencyFamily == Family.crypto_org)
    (fun r0 => (match raw.cryptoOrgResources with
      | some r =>
        match r0 with
        | none => true
        | some e => !(areSameResources (toCryptoOrgResourcesRaw e) r)
      | none => false : Bool))
    (raw.cryptoOrgResources.map fromCryptoOrgResourcesRaw) account.cryptoOrgResources (by
      intro hg
      cases hr : raw.cryptoOrgResources with
      | none => rfl
      | some r =>
        simp [fromCryptoOrgResourcesRaw, toCryptoOrgResourcesRaw, areSameResources])

theorem accCondNft_next (account : Account) (raw : AccountRaw)
    (sp : Option (List SubAccount × Bool)) :
    accCondNftDel (accNext account raw sp) raw = false ∧
      accCondNftSet (accNext account raw sp) raw = false := by
  have hn : (accNext account raw sp).nfts =
      (if accCondNftDel account raw then none
       else if accCondNftSet account raw then
         raw.nfts.map (fun l => l.map fromNFTRaw)
       else account.nfts) := rfl
  cases hr : raw.nfts with
  | none =>
    have hnone : (accNext account raw sp).nfts = none := by
      rw [hn]
      by_cases hdel : accCondNftDel account raw = true
      · rw [if_pos hdel]
      · rw [if_neg hdel]
        have hacc : account.nfts = none := by
          unfold accCondNftDel at hdel
          rw [hr] at hdel
          simpa using hdel
        by_cases hset : accCondNftSet account raw = true
        · rw [if_pos hset, hr]
          rfl
        · rw [if_neg hset]
          exact hacc
    constructor
    · simp [accCondNftDel, hnone]
    · simp [accCondNftSet, accCondNftDel, hnone, hr]
  | some ln =>
    have hdel : ∀ x : Account, accCondNftDel x raw = false := by
      intro x
      unfold accCondNftDel
      rw [hr]
      rfl
    refine ⟨hdel _, ?_⟩
    unfold accCondNftSet
    rw [hdel]
    by_cases hset : accCondNftSet account raw = true
    · have hv : (accNext account raw sp).nfts =
          raw.nfts.map (fun l => l.map fromNFTRaw) := by
        rw [hn, if_neg (by simp [hdel account]), if_pos hset]
      simp [hv]
    · have heq : (account.nfts == raw.nfts.map (fun l => l.map fromNFTRaw)) = true := by
        unfold accCondNftSet at hset
        rw [hdel account] at hset
        simpa using hset
      have hv : (accNext account raw sp).nfts = account.nfts := by
        rw [hn, if_neg (by simp [hdel account]), if_neg hset]
      simp [hv, heq]

/-- Re-patching the candidate account against the same raw snapshot fires no
changed-condition, provided the raw spendableBalance is present and the
second sub-account block reports no change. -/
theorem accChangedF_next (account : Account) (raw : AccountRaw)
    (sp1 sp2 : Option (List SubAccount × Bool))
    (hsub : accCondSub sp2 = false) (hsp : raw.spendableBalance.isSome) :
    accChangedF (accNext account raw sp1) raw sp2 = false := by
  unfold accChangedF
  rw [hsub, accCondOps_next, accCondCount_next, accCondPend_next, accCondBal_next,
    accCondSp_next account raw sp1 hsp, accCondSync_next, accCondCreation_next,
    accCondFresh_next, accCondFreshPath_next, accCondHeight_next, accCondHash_next,
    accCondBhc_next, accCondPolk_next, accCondZil_next, accCondOrg_next,
    (accCondNft_next account raw sp1).1, (accCondNft_next account raw sp1).2]
  rfl

theorem patchAccountFields_id (account : Account) (raw : AccountRaw)
    (sp : Option (List SubAccount × Bool)) :
    (patchAccountFields account raw sp).1.id = account.id := by
  unfold patchAccountFields
  split <;> rfl

theorem patchAccountFields_subAccounts (account : Account) (raw : AccountRaw)
    (sp : Option (List SubAccount × Bool)) :
    (patchAccountFields account raw sp).1.subAccounts =
      (if accCondSub sp then some ((sp.map (fun p => p.1)).iget)
       else account.subAccounts) := by
  unfold patchAccountFields
  by_cases hch : accChangedF account raw sp = true
  · rw [if_pos hch]
    rfl
  · rw [if_neg hch]
    have hs : accCondSub sp = false := by
      cases h : accCondSub sp
      · rfl
      · exact absurd (by unfold accChangedF; rw [h]; rfl) hch
    rw [hs]
    rfl

theorem patchSubAccountFields_snd_true (e : SubAccount) (ta : SubAccountRaw)
    (h : (patchSubAccountFields e ta).2 = true) :
    (patchSubAccountFields e ta).1 = e := by
  unfold patchSubAccountFields at h ⊢
  by_cases hc : subChangedF e ta = true
  · rw [if_pos hc] at h
    simp at h
  · rw [if_neg hc]

deriving instance Inhabited for BigNumber
deriving instance Inhabited for DateT
deriving instance Inhabited for BalanceHistoryDataCache
deriving instance Inhabited for BalanceHistoryCache
deriving instance Inhabited for SubAccount

/-- The cached sub-account looked up by id in the patchAccount sub-block. -/
def subFound (account : Account) (ta : SubAccountRaw) : Option SubAccount :=
  (account.subAccounts.getD []).find? (fun t => t.id == ta.id)

/-- The element produced for `ta` by the first patch run (meaningful whenever
subFound hits). -/
def subPatched1 (account : Account) (ta : SubAccountRaw) : SubAccount × Bool :=
  patchSubAccountFields (subFound account ta).iget ta

theorem list_mapM_ok {α β ε : Type} (f : α → Except ε β) (g : α → β) :
    ∀ l : List α, (∀ a ∈ l, f a = .ok (g a)) → l.mapM f = .ok (l.map g) := by
  intro l
  induction l with
  | nil => intro _; rfl
  | cons a t ih =>
    intro h
    rw [List.mapM_cons, h a (by simp), ih (fun x hx => h x (by simp [hx]))]
    rfl

theorem find_map_patched (h : SubAccountRaw → SubAccount) :
    ∀ l : List SubAccountRaw, (l.map (fun ta => ta.id)).Nodup →
      (∀ ta ∈ l, (h ta).id = ta.id) →
      ∀ ta ∈ l, (l.map h).find? (fun t => t.id == ta.id) = some (h ta) := by
  intro l
  induction l with
  | nil =>
    intro _ _ ta hta
    simp at hta
  | cons a t ih =>
    intro hnd hid ta hta
    have hnd' : (∀ x ∈ t, ¬x.id = a.id) ∧ (t.map (fun ta => ta.id)).Nodup := by
      simpa using hnd
    rcases List.mem_cons.mp hta with rfl | hmem
    · rw [List.map_cons, List.find?_cons_of_pos _ (by simp [hid ta (by simp)])]
    · have hne : a.id ≠ ta.id := fun he => hnd'.1 ta hmem he.symm
      rw [List.map_cons, List.find?_cons_of_neg _ (by simp [hid a (by simp), hne])]
      exact ih hnd'.2 (fun x hx => hid x (by simp [hx])) ta hmem

/-- patchAccount with matching id and no raw sub-account list reduces to the
plain field patch. -/
theorem patchAccount_eq_none (account : Account) (raw : AccountRaw)
    (hid : account.id = raw.id) (hrs : raw.subAccounts = none) :
    patchAccount account raw = .ok (patchAccountFields account raw none) := by
  unfold patchAccount
  rw [if_neg (by simp [hid]), hrs]
  rfl

/-- patchAccount with matching id and a raw sub-account list, given the
per-element patches succeed, reduces to the field patch fed by the
sub-account block verdict. -/
theorem patchAccount_eq_sub (account : Account) (raw : AccountRaw)
    (l : List SubAccountRaw) (patched : List (SubAccount × Bool))
    (hid : account.id = raw.id) (hrs : raw.subAccounts = some l)
    (hm : l.mapM (fun ta =>
        patchSubAccount ((account.subAccounts.getD []).find?
          (fun t => t.id == ta.id)) ta) = .ok patched) :
    patchAccount account raw = .ok (patchAccountFields account raw
      (if l.length != (account.subAccounts.getD []).length ||
          patched.any (fun p => !p.2)
       then some (patched.map (fun p => p.1), false)
       else some (account.subAccounts.getD [], account.subAccounts.isSome))) := by
  unfold patchAccount
  rw [if_neg (by simp [hid]), hrs]
  simp only [bind, Except.bind, pure, Except.pure, hm]
  by_cases hc : (l.length != (account.subAccounts.getD []).length ||
      patched.any (fun p => !p.2)) = true
  · simp only [hc]
    rfl
  · have hc' : (l.length != (account.subAccounts.getD []).length ||
        patched.any (fun p => !p.2)) = false := Bool.eq_false_iff.mpr hc
    simp only [hc']
    rfl

/-- C4: patchAccount is idempotent in the stated regime: same id, a present
raw spendableBalance, and a raw sub-account list whose ids are distinct, each
finding a cached sub-account with matching parentId, token records carrying a
spendableBalance.  A first successful patch yields an account that a second
patch against the same raw snapshot returns unchanged (the object itself). -/
theorem patchAccount_idempotent (account : Account) (raw : AccountRaw)
    (a1 : Account) (c : Bool)
    (hid : account.id = raw.id)
    (hsp : raw.spendableBalance.isSome = true)
    (hsub : ∀ l, raw.subAccounts = some l →
      (l.map (fun ta => ta.id)).Nodup ∧
      ∀ ta ∈ l,
        ((∃ e, subFound account ta = some e ∧ e.parentId = ta.parentId) ∧
         (ta.type = "TokenAccountRaw" → ta.spendableBalance.isSome = true)))
    (h1 : patchAccount account raw = .ok (a1, c)) :
    patchAccount a1 raw = .ok (a1, true) := by
  cases hrs : raw.subAccounts with
  | none =>
    rw [patchAccount_eq_none account raw hid hrs] at h1
    have hpf : patchAccountFields account raw none = (a1, c) := Except.ok.inj h1
    have hfst1 : (patchAccountFields account raw none).1 = a1 := by rw [hpf]
    have hid1 : a1.id = raw.id := by
      rw [← hfst1, patchAccountFields_id]
      exact hid
    rw [patchAccount_eq_none a1 raw hid1 hrs]
    by_cases hch : accChangedF account raw none = true
    · have ha1 : a1 = accNext account raw none := by
        rw [← hfst1]
        unfold patchAccountFields
        rw [if_pos hch]
      rw [ha1]
      unfold patchAccountFields
      rw [if_neg (by simp [accChangedF_next account raw none none rfl hsp])]
    · have ha1 : a1 = account := by
        rw [← hfst1]
        unfold patchAccountFields
        rw [if_neg hch]
      rw [ha1]
      unfold patchAccountFields
      rw [if_neg hch]
  | some l =>
    obtain ⟨hnd, hall⟩ := hsub l hrs
    have hK : ∀ ta ∈ l, (subPatched1 account ta).1.id = ta.id ∧
        (subPatched1 account ta).1.parentId = ta.parentId ∧
        patchSubAccountFields (subPatched1 account ta).1 ta =
          ((subPatched1 account ta).1, true) := by
      intro ta hta
      obtain ⟨⟨e, he, hpar⟩, hsp'⟩ := hall ta hta
      have hide : e.id = ta.id := by
        have hp := List.find?_some (show (account.subAccounts.getD []).find?
          (fun t => t.id == ta.id) = some e from he)
        simpa using hp
      have hsp1 : subPatched1 account ta = patchSubAccountFields e ta := by
        unfold subPatched1
        rw [he]
      refine ⟨?_, ?_, ?_⟩
      · rw [hsp1, patchSubAccountFields_id, hide]
      · rw [hsp1, patchSubAccountFields_parentId, hpar]
      · rw [hsp1]
        exact patchSubAccountFields_stab e ta hsp'
    have hfa : ∀ ta ∈ l, patchSubAccount ((account.subAccounts.getD []).find?
        (fun t => t.id == ta.id)) ta = .ok (subPatched1 account ta) := by
      intro ta hta
      obtain ⟨⟨e, he, hpar⟩, hsp'⟩ := hall ta hta
      have hide : e.id = ta.id := by
        have hp := List.find?_some (show (account.subAccounts.getD []).find?
          (fun t => t.id == ta.id) = some e from he)
        simpa using hp
      have hsp1 : subPatched1 account ta = patchSubAccountFields e ta := by
        unfold subPatched1
        rw [he]
      rw [show (account.subAccounts.getD []).find?
        (fun t => t.id == ta.id) = some e from he, hsp1]
      unfold patchSubAccount
      dsimp only
      rw [if_neg (by simp [hide, hpar])]
    have hm1 := list_mapM_ok _ (fun ta => subPatched1 account ta) l hfa
    rw [patchAccount_eq_sub account raw l _ hid hrs hm1] at h1
    have hpf := Except.ok.inj h1
    by_cases hc1 : (l.length != (account.subAccounts.getD []).length ||
        (l.map (fun ta => subPatched1 account ta)).any (fun p => !p.2)) = true
    · rw [if_pos hc1] at hpf
      have hchF : accChangedF account raw
          (some ((l.map (fun ta => subPatched1 account ta)).map (fun p => p.1),
            false)) = true := by
        unfold accChangedF accCondSub
        rfl
      have hfst1 : (patchAccountFields account raw
          (some ((l.map (fun ta => subPatched1 account ta)).map (fun p => p.1),
            false))).1 = a1 := by rw [hpf]
      have ha1 : a1 = accNext account raw
          (some ((l.map (fun ta => subPatched1 account ta)).map (fun p => p.1),
            false)) := by
        rw [← hfst1]
        unfold patchAccountFields
        rw [if_pos hchF]
      have ha1s : a1.subAccounts =
          some ((l.map (fun ta => subPatched1 account ta)).map (fun p => p.1)) := by
        rw [ha1]
        rfl
      have hid1 : a1.id = raw.id := by
        rw [← hfst1, patchAccountFields_id]
        exact hid
      have hmap : (l.map (fun ta => subPatched1 account ta)).map (fun p => p.1) =
          l.map (fun ta => (subPatched1 account ta).1) := by
        rw [List.map_map]
        rfl
      have hfa2 : ∀ ta ∈ l, patchSubAccount ((a1.subAccounts.getD []).find?
          (fun t => t.id == ta.id)) ta = .ok ((subPatched1 account ta).1, true) := by
        intro ta hta
        have hk := hK ta hta
        have hfind2 := find_map_patched (fun ta => (subPatched1 account ta).1) l
          hnd (fun x hx => (hK x hx).1) ta hta
        rw [ha1s]
        simp only [Option.getD_some]
        rw [hmap, hfind2]
        unfold patchSubAccount
        dsimp only
        rw [if_neg (by simp [hk.1, hk.2.1])]
        rw [hk.2.2]
      have hm2 := list_mapM_ok _ (fun ta => ((subPatched1 account ta).1, true)) l hfa2
      rw [patchAccount_eq_sub a1 raw l _ hid1 hrs hm2]
      have hlen2 : (a1.subAccounts.getD []).length = l.length := by
        rw [ha1s]
        simp
      rw [if_neg (by rw [hlen2]; simp)]
      have hsg : (a1.subAccounts.getD [], a1.subAccounts.isSome) =
          ((l.map (fun ta => subPatched1 account ta)).map (fun p => p.1), true) := by
        rw [ha1s]
        rfl
      rw [hsg, ha1]
      unfold patchAccountFields
      rw [if_neg (by simp [accChangedF_next, accCondSub, hsp])]
    · rw [if_neg hc1] at hpf
      have hparts : (l.length != (account.subAccounts.getD []).length) = false ∧
          ((l.map (fun ta => subPatched1 account ta)).any (fun p => !p.2)) = false := by
        have hc1' := Bool.eq_false_iff.mpr hc1
        simp only [Bool.or_eq_false_iff] at hc1'
        exact hc1'
      have hleneq : l.length = (account.subAccounts.getD []).length := by
        have := hparts.1
        simpa using this
      have hallsnd : ∀ ta ∈ l, (subPatched1 account ta).2 = true := by
        intro ta hta
        cases hv : (subPatched1 account ta).2 with
        | true => rfl
        | false =>
          exfalso
          have hany : ((l.map (fun ta => subPatched1 account ta)).any
              (fun p => !p.2)) = true := by
            rw [List.any_eq_true]
            exact ⟨subPatched1 account ta, List.mem_map.mpr ⟨ta, hta, rfl⟩,
              by rw [hv]; rfl⟩
          exact Bool.false_ne_true (hparts.2.symm.trans hany)
      have hfst : ∀ ta ∈ l, subFound account ta =
          some ((subPatched1 account ta).1) := by
        intro ta hta
        obtain ⟨⟨e, he, hpar⟩, _⟩ := hall ta hta
        have hsp1 : subPatched1 account ta = patchSubAccountFields e ta := by
          unfold subPatched1
          rw [he]
        have hst := patchSubAccountFields_snd_true e ta
          (by rw [← hsp1]; exact hallsnd ta hta)
        rw [hsp1, hst, he]
      cases hacc : account.subAccounts with
      | none =>
        have hl : l = [] := by
          have := hleneq
          rw [hacc] at this
          simpa using this
        subst hl
        rw [hacc] at hpf
        simp only [Option.getD_none, Option.isSome_none] at hpf
        have hchF : accChangedF account raw (some ([], false)) = true := by
          unfold accChangedF accCondSub
          rfl
        have hfst1 : (patchAccountFields account raw (some ([], false))).1 = a1 := by
          rw [hpf]
        have ha1 : a1 = accNext account raw (some ([], false)) := by
          rw [← hfst1]
          unfold patchAccountFields
          rw [if_pos hchF]
        have ha1s : a1.subAccounts = some [] := by
          rw [ha1]
          rfl
        have hid1 : a1.id = raw.id := by
          rw [← hfst1, patchAccountFields_id]
          exact hid
        have hm2 := list_mapM_ok (fun ta => patchSubAccount
            ((a1.subAccounts.getD []).find? (fun t => t.id == ta.id)) ta)
          (fun ta => ((subPatched1 account ta).1, true)) []
          (by intro ta hta; simp at hta)
        rw [patchAccount_eq_sub a1 raw [] _ hid1 hrs hm2]
        rw [if_neg (by rw [ha1s]; simp)]
        have hsg : (a1.subAccounts.getD [], a1.subAccounts.isSome) =
            (([] : List SubAccount), true) := by
          rw [ha1s]
          rfl
        rw [hsg, ha1]
        unfold patchAccountFields
        rw [if_neg (by simp [accChangedF_next, accCondSub, hsp])]
      | some es =>
        rw [hacc] at hpf
        simp only [Option.getD_some, Option.isSome_some] at hpf
        have hsub1 : accCondSub (some (es, true)) = false := rfl
        have hfst1 : (patchAccountFields account raw (some (es, true))).1 = a1 := by
          rw [hpf]
        have ha1s : a1.subAccounts = some es := by
          rw [← hfst1, patchAccountFields_subAccounts, hsub1, if_neg (by simp)]
          exact hacc
        have hid1 : a1.id = raw.id := by
          rw [← hfst1, patchAccountFields_id]
          exact hid
        have hfa2 : ∀ ta ∈ l, patchSubAccount ((a1.subAccounts.getD []).find?
            (fun t => t.id == ta.id)) ta = .ok ((subPatched1 account ta).1, true) := by
          intro ta hta
          have hk := hK ta hta
          have hfound : es.find? (fun t => t.id == ta.id) =
              some ((subPatched1 account ta).1) := by
            have hx := hfst ta hta
            unfold subFound at hx
            rw [hacc] at hx
            simpa using hx
          rw [ha1s]
          simp only [Option.getD_some]
          rw [hfound]
          unfold patchSubAccount
          dsimp only
          rw [if_neg (by simp [hk.1, hk.2.1])]
          rw [hk.2.2]
        have hm2 := list_mapM_ok _ (fun ta => ((subPatched1 account ta).1, true)) l hfa2
        rw [patchAccount_eq_sub a1 raw l _ hid1 hrs hm2]
        have hlen2 : (a1.subAccounts.getD []).length = l.length := by
          rw [ha1s]
          simp only [Option.getD_some]
          rw [hleneq, hacc]
          simp
        rw [if_neg (by rw [hlen2]; simp)]
        have hsg : (a1.subAccounts.getD [], a1.subAccounts.isSome) = (es, true) := by
          rw [ha1s]
          rfl
        rw [hsg]
        by_cases hchF : accChangedF account raw (some (es, true)) = true
        · have ha1 : a1 = accNext account raw (some (es, true)) := by
            rw [← hfst1]
            unfold patchAccountFields
            rw [if_pos hchF]
          rw [ha1]
          unfold patchAccountFields
          rw [if_neg (by simp [accChangedF_next, accCondSub, hsp])]
        · have ha1 : a1 = account := by
            rw [← hfst1]
            unfold patchAccountFields
            rw [if_neg hchF]
          rw [ha1]
          unfold patchAccountFields
          rw [if_neg hchF]

/-- A cached token sub-account owned by accW. -/
def subW : SubAccount :=
  { type := "TokenAccount", id := "t1", parentId := "accW",
    token := some "tok", currency := none, name := none, address := none,
    starred := false, balance := BigNumber.ofString "1",
    spendableBalance := some (BigNumber.ofString "1"), compoundBalance := none,
    approvals := none, operations := [], pendingOperations := [],
    operationsCount := 0, creationDate := DateT.ofString "C",
    balanceHistoryCache := emptyBhc }

/-- The raw record for subW with a changed balance. -/
def subRawW : SubAccountRaw :=
  { tokRaw with parentId := "accW", balance := "2", spendableBalance := some "2" }

/-- A cached account holding the one cached sub-account. -/
def accW : Account :=
  { btcAccount with
    id := "accW"
    currencyFamily := Family.other
    bitcoinResources := none
    subAccounts := some [subW] }

/-- The raw snapshot for accW, carrying the one raw sub-account record. -/
def rawW : AccountRaw :=
  { btcRaw with
    id := "accW"
    currencyFamily := Family.other
    bitcoinResources := none
    subAccounts := some [subRawW] }

/-- The account produced by the first patch of accW against rawW. -/
def a1W : Account :=
  match patchAccount accW rawW with
  | .ok p => p.1
  | .error _ => accW

/-- Witness for C4: at the concrete pair (accW, rawW) the hypotheses hold
(the sub-account is found by id with matching parentId and the token raw
record carries a spendableBalance), the first patch changes the sub-account
balance (a fresh object, boolean false), and the second patch returns that
very result object unchanged. -/
theorem patchAccount_idempotent_witness :
    patchAccount a1W rawW = .ok (a1W, true) :=
  patchAccount_idempotent accW rawW a1W false (by decide) (by decide)
    (by
      intro l hl
      have hleq : l = [subRawW] := (Option.some.inj hl).symm
      subst hleq
      refine ⟨by decide, ?_⟩
      intro ta hta
      have hta' : ta = subRawW := by simpa using hta
      subst hta'
      exact ⟨⟨subW, by decide, by decide⟩, fun _ => by decide⟩)
    (by decide)
